import Mathlib

/-!
# Verification of the be-tree expression core

A shallow embedding of the predicate-expression matching engine found in
`src/ast.c`, `src/var.c` and `src/functions.c`:

* machine integers (`int64_t`, `int32_t`, `uint32_t`, `size_t`) are modelled
  as `Int`/`Nat`, with explicit two's-complement / unsigned conversions
  (`toU64`, `toU32`, `toI32`) at the points where C performs them;
* IEEE-754 doubles are modelled as `Rat`; the transcendental great-circle
  predicate (`geo_within_radius`) is not embedded — evaluation is
  parametrised by an arbitrary boolean function `geoFn` standing for it, so
  every theorem below holds for every interpretation of that predicate;
* fallible code (the `betree_assert` / `invalid_expr` fatal paths) returns
  `Option` — `none` is process abort;
* the per-call mutation of the memoization table and the event are modelled
  by explicit state passing.

Definitions keep the C names where possible.
-/

namespace BeTree

/-- C division truncates toward zero (`Int.tdiv`), used for every `/` on
    `int64_t` in the source. -/
def cdiv (a b : Int) : Int := Int.tdiv a b

/-- Conversion of a signed 64-bit value to `uint64_t`/`size_t`
    (two's complement reinterpretation), as performed by the usual
    arithmetic conversions when C compares `int64_t` with `size_t`. -/
def toU64 (x : Int) : Nat := (Int.emod x (2 ^ 64)).toNat

/-- Conversion of a signed 64-bit value to `uint32_t` (truncation). -/
def toU32 (x : Int) : Nat := (Int.emod x (2 ^ 32)).toNat

/-- Conversion of a signed 64-bit value to `int32_t` (two's complement
    truncation). -/
def toI32 (x : Int) : Int := Int.emod (x + 2 ^ 31) (2 ^ 32) - 2 ^ 31

/-- `struct string_value`: raw text plus the interned
    `(attribute var, string id)` pair. -/
structure StringValue where
  text : List Char
  var : Nat
  str : Nat
deriving DecidableEq, Repr

/-- `struct segment`: segment id and timestamp in microseconds. -/
structure Segment where
  id : Int
  timestamp : Int
deriving DecidableEq, Repr

/-- `enum frequency_type_e`. -/
inductive FreqType where
  | advertiser | advertiserIp | campaign | campaignIp
  | flight | flightIp | product | productIp
deriving DecidableEq, Repr

/-- `struct frequency_cap`. -/
structure FrequencyCap where
  type : FreqType
  id : Nat
  ns : StringValue
  value : Nat
  timestamp_defined : Bool
  timestamp : Int
deriving DecidableEq, Repr

/-! ## `src/functions.c` -/

/-- `within_frequency_caps` from `src/functions.c`.  The C comparison
    `(now - (timestamp / 1000000)) > length` compares an `int64_t` with a
    `size_t`, so the signed difference is converted to `uint64_t` first. -/
def within_frequency_caps (caps : List FrequencyCap) (type : FreqType)
    (id : Nat) (namespc : StringValue) (value : Nat) (length : Nat)
    (now : Int) : Bool :=
  match caps with
  | [] => true
  | c :: rest =>
    if c.id = id ∧ c.ns.str = namespc.str ∧ c.type = type then
      if length ≤ 0 then
        decide (value > c.value)
      else if ¬ c.timestamp_defined then
        true
      else if toU64 (now - cdiv c.timestamp 1000000) > length then
        true
      else if value > c.value then
        true
      else
        false
    else
      within_frequency_caps rest type id namespc value length now

/-- `segment_within` from `src/functions.c`. -/
def segment_within (segment_id : Int) (after_seconds : Int)
    (segments : List Segment) (now : Int) : Bool :=
  match segments with
  | [] => false
  | s :: rest =>
    if s.id < segment_id then
      segment_within segment_id after_seconds rest now
    else if s.id = segment_id then
      decide (now - after_seconds ≤ cdiv s.timestamp 1000000)
    else
      false

/-- `segment_before` from `src/functions.c`. -/
def segment_before (segment_id : Int) (before_seconds : Int)
    (segments : List Segment) (now : Int) : Bool :=
  match segments with
  | [] => false
  | s :: rest =>
    if s.id < segment_id then
      segment_before segment_id before_seconds rest now
    else if s.id = segment_id then
      decide (now - before_seconds > cdiv s.timestamp 1000000)
    else
      false

/-- Whether `p` occurs as a prefix of `v` (the specification's meaning of
    `STARTS_WITH`). -/
def prefix_of (p v : List Char) : Bool := decide (v.take p.length = p)

/-- `strstr(value, pattern) != NULL`: the pattern occurs as a substring at
    some offset. -/
def strstr_found : List Char → List Char → Bool
  | [], p => prefix_of p []
  | c :: rest, p => prefix_of p (c :: rest) || strstr_found rest p

/-- `contains` from `src/functions.c`. -/
def contains (value pattern : List Char) : Bool :=
  if value.length < pattern.length then false
  else strstr_found value pattern

/-- `starts_with` from `src/functions.c`.  Note: the body is identical to
    `contains` — it tests `strstr(value, pattern) != NULL`. -/
def starts_with (value pattern : List Char) : Bool :=
  if value.length < pattern.length then false
  else strstr_found value pattern

/-- `ends_with` from `src/functions.c`: runs `strstr` on the suffix of
    `value` of the pattern's length. -/
def ends_with (value pattern : List Char) : Bool :=
  if value.length < pattern.length then false
  else strstr_found (value.drop (value.length - pattern.length)) pattern

/-! ## Values and events (`value.h` shapes as used by `src/var.c`) -/

/-- `enum value_e`. -/
inductive ValueKind where
  | b | i | f | s | il | sl | segments | frequency
deriving DecidableEq, Repr

/-- `struct value`: the closed tagged union of event values. -/
inductive Value where
  | b (x : Bool)
  | i (n : Int)
  | f (q : Rat)
  | s (sv : StringValue)
  | il (l : List Int)
  | sl (l : List StringValue)
  | segments (l : List Segment)
  | frequency (l : List FrequencyCap)
deriving DecidableEq, Repr

/-- `struct pred`: one event binding. -/
structure Pred where
  variable_id : Nat
  value : Value
deriving DecidableEq, Repr

/-- `struct event`: the array of bindings. -/
structure Event where
  preds : List Pred
deriving DecidableEq, Repr

/-- The parts of `struct config` that evaluation reads: the
    `name -> attribute id` registry (`get_id_for_attr`) and the
    per-attribute `allow_undefined` flag
    (`is_variable_allow_undefined`). -/
structure Config where
  attrId : List Char → Nat
  allowUndefined : Nat → Bool

/-- `enum variable_state_e` together with the value delivered through the
    out-parameter on `VARIABLE_DEFINED`. -/
inductive VarState where
  | defined (v : Value)
  | undefined
  | missing
deriving DecidableEq, Repr

/-- `get_variable` from `src/var.c`: linear scan of the event's predicate
    array, first matching entry wins; absent attributes are `undefined`
    when allowed and `missing` otherwise. -/
def get_variable (config : Config) (variable_id : Nat) (event : Event) :
    VarState :=
  go event.preds
where
  go : List Pred → VarState
    | [] =>
      if config.allowUndefined variable_id then .undefined else .missing
    | p :: rest =>
      if variable_id = p.variable_id then .defined p.value else go rest

/-! ## Expression AST (`ast.h` shapes as used by `src/ast.c`)

Every node carries the `id` slot written by the predicate interner
(`node->id`).  The `AST_SPECIAL_GEO` node is carried in the AST, but its
`geo_within_radius` computation (transcendental double arithmetic) is a
parameter `geoFn` of evaluation rather than an embedded definition. -/

/-- `struct attr_var`: attribute name plus resolved id. -/
structure AttrVar where
  attr : List Char
  var : Nat
deriving DecidableEq, Repr

inductive NumCompareOp where
  | lt | le | gt | ge
deriving DecidableEq, Repr

inductive EqualityOp where
  | eq | ne
deriving DecidableEq, Repr

inductive SetOp where
  | notInSet | inSet
deriving DecidableEq, Repr

inductive ListOp where
  | oneOf | noneOf | allOf
deriving DecidableEq, Repr

inductive SegmentOp where
  | within | before
deriving DecidableEq, Repr

inductive StrOp where
  | strContains | strStarts | strEnds
deriving DecidableEq, Repr

inductive NumCompareValue where
  | i (n : Int)
  | f (q : Rat)
deriving DecidableEq, Repr

inductive EqualityValue where
  | i (n : Int)
  | f (q : Rat)
  | s (sv : StringValue)
deriving DecidableEq, Repr

inductive SetLeftValue where
  | i (n : Int)
  | s (sv : StringValue)
  | variableValue (av : AttrVar)
deriving DecidableEq, Repr

inductive SetRightValue where
  | il (l : List Int)
  | sl (l : List StringValue)
  | variableValue (av : AttrVar)
deriving DecidableEq, Repr

inductive ListValue where
  | il (l : List Int)
  | sl (l : List StringValue)
deriving DecidableEq, Repr

inductive GeoValue where
  | i (n : Int)
  | f (q : Rat)
deriving DecidableEq, Repr

/-- `struct ast_node` (the special sub-union flattened into the sum;
    `AST_SPECIAL_FREQUENCY` has a single operation so its `op` field is
    omitted). -/
inductive AstNode where
  | numericCompare (id : Nat) (op : NumCompareOp) (attr : AttrVar)
      (value : NumCompareValue)
  | equality (id : Nat) (op : EqualityOp) (attr : AttrVar)
      (value : EqualityValue)
  | boolVariable (id : Nat) (attr : AttrVar)
  | boolNot (id : Nat) (child : AstNode)
  | boolAnd (id : Nat) (lhs rhs : AstNode)
  | boolOr (id : Nat) (lhs rhs : AstNode)
  | setNode (id : Nat) (op : SetOp) (left : SetLeftValue)
      (right : SetRightValue)
  | listNode (id : Nat) (op : ListOp) (attr : AttrVar) (value : ListValue)
  | specialFrequency (id : Nat) (ftype : FreqType) (attr : AttrVar)
      (ns : StringValue) (value : Int) (length : Nat)
  | specialSegment (id : Nat) (op : SegmentOp) (hasVariable : Bool)
      (attr : AttrVar) (segment_id : Int) (seconds : Int)
  | specialGeo (id : Nat) (lat lon : GeoValue) (hasRadius : Bool)
      (radius : GeoValue)
  | specialString (id : Nat) (op : StrOp) (attr : AttrVar)
      (pattern : List Char)
deriving DecidableEq, Repr

/-- The `node->id` slot. -/
def AstNode.id : AstNode → Nat
  | .numericCompare i .. => i
  | .equality i .. => i
  | .boolVariable i .. => i
  | .boolNot i _ => i
  | .boolAnd i .. => i
  | .boolOr i .. => i
  | .setNode i .. => i
  | .listNode i .. => i
  | .specialFrequency i .. => i
  | .specialSegment i .. => i
  | .specialGeo i .. => i
  | .specialString i .. => i

/-! ## Leaf evaluation (`src/ast.c` match functions)

`none` models a `betree_assert` failure or `invalid_expr` (process
abort). -/

/-- Modelled from the spec: `feq` lives in `utils.c`, which is not in the
    sources; the spec prescribes an ε-tolerant float equality with a single
    fixed ε = 1e-9. -/
def feq (a b : Rat) : Bool :=
  decide (a - b < 1 / 1000000000 ∧ b - a < 1 / 1000000000)

/-- Modelled from the spec: ε-tolerant float inequality, the negation of
    `feq`. -/
def fne (a b : Rat) : Bool := ! feq a b

/-- `match_numeric_compare_expr` from `src/ast.c`. -/
def match_numeric_compare_expr (config : Config) (event : Event)
    (op : NumCompareOp) (attr : AttrVar) (value : NumCompareValue) :
    Option Bool :=
  match get_variable config attr.var event with
  | .missing => none
  | .undefined => some false
  | .defined v =>
    match op, value, v with
    | .lt, .i lit, .i x => some (decide (x < lit))
    | .lt, .f lit, .f x => some (decide (x < lit))
    | .le, .i lit, .i x => some (decide (x ≤ lit))
    | .le, .f lit, .f x => some (decide (x ≤ lit))
    | .gt, .i lit, .i x => some (decide (x > lit))
    | .gt, .f lit, .f x => some (decide (x > lit))
    | .ge, .i lit, .i x => some (decide (x ≥ lit))
    | .ge, .f lit, .f x => some (decide (x ≥ lit))
    | _, _, _ => none

/-- `match_equality_expr` from `src/ast.c`.  String equality additionally
    asserts that both interned strings belong to the same attribute. -/
def match_equality_expr (config : Config) (event : Event)
    (op : EqualityOp) (attr : AttrVar) (value : EqualityValue) :
    Option Bool :=
  match get_variable config attr.var event with
  | .missing => none
  | .undefined => some false
  | .defined v =>
    match op, value, v with
    | .eq, .i lit, .i x => some (decide (x = lit))
    | .eq, .f lit, .f x => some (feq x lit)
    | .eq, .s lit, .s sv =>
      if sv.var = lit.var then some (decide (sv.str = lit.str)) else none
    | .ne, .i lit, .i x => some (decide (x ≠ lit))
    | .ne, .f lit, .f x => some (fne x lit)
    | .ne, .s lit, .s sv =>
      if sv.var = lit.var then some (decide (sv.str ≠ lit.str)) else none
    | _, _, _ => none

/-- `integer_in_integer_list` from `src/ast.c`. -/
def integer_in_integer_list (integer : Int) (list : List Int) : Bool :=
  list.any (fun x => decide (x = integer))

/-- `string_in_string_list` from `src/ast.c`: compares the interned
    `(var, str)` pair of each element. -/
def string_in_string_list (string : StringValue) (list : List StringValue) :
    Bool :=
  list.any (fun x => decide (x.var = string.var) && decide (x.str = string.str))

/-- `match_set_expr` from `src/ast.c`: exactly one side is a variable;
    other shapes hit `invalid_expr`. -/
def match_set_expr (config : Config) (event : Event) (op : SetOp)
    (left : SetLeftValue) (right : SetRightValue) : Option Bool :=
  let decideOp : Bool → Option Bool := fun is_in =>
    match op with
    | .notInSet => some (! is_in)
    | .inSet => some is_in
  match left, right with
  | .i n, .variableValue av =>
    match get_variable config av.var event with
    | .missing => none
    | .undefined => some false
    | .defined (.il l) => decideOp (integer_in_integer_list n l)
    | .defined _ => none
  | .s sv, .variableValue av =>
    match get_variable config av.var event with
    | .missing => none
    | .undefined => some false
    | .defined (.sl l) => decideOp (string_in_string_list sv l)
    | .defined _ => none
  | .variableValue av, .il l =>
    match get_variable config av.var event with
    | .missing => none
    | .undefined => some false
    | .defined (.i n) => decideOp (integer_in_integer_list n l)
    | .defined _ => none
  | .variableValue av, .sl l =>
    match get_variable config av.var event with
    | .missing => none
    | .undefined => some false
    | .defined (.s sv) => decideOp (string_in_string_list sv l)
    | .defined _ => none
  | _, _ => none

/-- Inner loop of the `ONE_OF`/`NONE_OF` string case of `match_list_expr`:
    scans the literal list for one fixed event element; each comparison is
    preceded by the `betree_assert` that both strings belong to the same
    attribute, and the loop breaks at the first match. -/
def one_of_string_inner (left : StringValue) :
    List StringValue → Option Bool
  | [] => some false
  | r :: rest =>
    if left.var = r.var then
      if left.str = r.str then some true else one_of_string_inner left rest
    else none

/-- Outer loop of the `ONE_OF`/`NONE_OF` string case of
    `match_list_expr`. -/
def one_of_string : List StringValue → List StringValue → Option Bool
  | [], _ => some false
  | l :: rest, lits =>
    match one_of_string_inner l lits with
    | none => none
    | some true => some true
    | some false => one_of_string rest lits

/-- One literal element of the `ALL_OF` string case: scan the event list
    for it, with the same per-comparison assert and break-on-match. -/
def all_of_string_find (right : StringValue) :
    List StringValue → Option Bool
  | [] => some false
  | l :: rest =>
    if l.var = right.var then
      if l.str = right.str then some true else all_of_string_find right rest
    else none

/-- `ALL_OF` string case: every literal element must appear in the event
    list (the C code counts the found ones and compares with the literal
    count; one literal element is found at most once, so the count equals
    the target exactly when all are found). -/
def all_of_string : List StringValue → List StringValue → Option Bool
  | [], _ => some true
  | r :: rest, eventList =>
    match all_of_string_find r eventList with
    | none => none
    | some found =>
      match all_of_string rest eventList with
      | none => none
      | some restOk => some (found && restOk)

/-- `match_list_expr` from `src/ast.c`. -/
def match_list_expr (config : Config) (event : Event) (op : ListOp)
    (attr : AttrVar) (value : ListValue) : Option Bool :=
  match get_variable config attr.var event with
  | .missing => none
  | .undefined => some false
  | .defined v =>
    match op, value, v with
    | .oneOf, .il lits, .il l =>
      some (l.any (fun x => integer_in_integer_list x lits))
    | .noneOf, .il lits, .il l =>
      some (! l.any (fun x => integer_in_integer_list x lits))
    | .oneOf, .sl lits, .sl l => one_of_string l lits
    | .noneOf, .sl lits, .sl l =>
      match one_of_string l lits with
      | none => none
      | some r => some (! r)
    | .allOf, .il lits, .il l =>
      some (lits.all (fun r => integer_in_integer_list r l))
    | .allOf, .sl lits, .sl l => all_of_string lits l
    | _, _, _ => none

/-- The `AST_BOOL_VARIABLE` case of `match_bool_expr`
    (via `get_bool_var`). -/
def match_bool_variable (config : Config) (event : Event) (attr : AttrVar) :
    Option Bool :=
  match get_variable config attr.var event with
  | .missing => none
  | .undefined => some false
  | .defined (.b x) => some x
  | .defined _ => none

/-- The hard-coded frequency type ids of `match_special_expr`. -/
def freq_type_id : FreqType → Nat
  | .advertiser | .advertiserIp => 20
  | .campaign | .campaignIp => 30
  | .flight | .flightIp => 10
  | .product | .productIp => 40

/-- The `AST_SPECIAL_FREQUENCY` case of `match_special_expr`: looks up
    `now` and `frequency_caps` by name, then calls
    `within_frequency_caps`; the stored `int64_t` value is passed through
    the `uint32_t` parameter. -/
def match_special_frequency (config : Config) (event : Event)
    (ftype : FreqType) (ns : StringValue) (value : Int) (length : Nat) :
    Option Bool :=
  match get_variable config (config.attrId ['n', 'o', 'w']) event with
  | .missing => none
  | .defined v =>
    match v with
    | .i now =>
      match get_variable config
          (config.attrId "frequency_caps".toList) event with
      | .missing => none
      | .undefined => some false
      | .defined (.frequency caps) =>
        some (within_frequency_caps caps ftype (freq_type_id ftype) ns
          (toU32 value) length now)
      | .defined _ => none
    | _ => none
  | .undefined => some false

/-- The `AST_SPECIAL_SEGMENT` case of `match_special_expr`: the segments
    attribute is resolved by name (the node's `attr_var.attr` when
    `has_variable`, else the implicit `segments_with_timestamp`), and the
    stored `int64_t` seconds value is passed through the `int32_t`
    parameter. -/
def match_special_segment (config : Config) (event : Event)
    (op : SegmentOp) (hasVariable : Bool) (attr : AttrVar)
    (segment_id : Int) (seconds : Int) : Option Bool :=
  let nowState := get_variable config (config.attrId ['n', 'o', 'w']) event
  match nowState with
  | .missing => none
  | .defined (.i now) =>
    let segName :=
      if hasVariable then attr.attr else "segments_with_timestamp".toList
    match get_variable config (config.attrId segName) event with
    | .missing => none
    | .undefined => some false
    | .defined (.segments segments) =>
      match op with
      | .within =>
        some (segment_within segment_id (toI32 seconds) segments now)
      | .before =>
        some (segment_before segment_id (toI32 seconds) segments now)
    | .defined _ => none
  | .defined _ => none
  | .undefined =>
    -- `now` undefined: the segments attribute is still looked up (and its
    -- missing/type asserts still fire) before the combined undefined check
    -- returns false.
    let segName :=
      if hasVariable then attr.attr else "segments_with_timestamp".toList
    match get_variable config (config.attrId segName) event with
    | .missing => none
    | .undefined => some false
    | .defined (.segments _) => some false
    | .defined _ => none

/-- `get_geo_value_as_float` from `src/ast.c`. -/
def get_geo_value_as_float : GeoValue → Rat
  | .i n => (n : Rat)
  | .f q => q

/-- The `AST_SPECIAL_GEO` case of `match_special_expr`.  `geoFn` stands
    for `geo_within_radius` (transcendental double arithmetic, not
    embedded); both implicit attributes are looked up and type-checked
    before the undefined test. -/
def match_special_geo (config : Config) (event : Event)
    (geoFn : Rat → Rat → Rat → Rat → Rat → Bool)
    (lat lon : GeoValue) (radius : GeoValue) : Option Bool :=
  let latState :=
    get_variable config (config.attrId "latitude".toList) event
  let lonState :=
    get_variable config (config.attrId "longitude".toList) event
  match latState, lonState with
  | .defined (.f latv), .defined (.f lonv) =>
    some (geoFn (get_geo_value_as_float lat) (get_geo_value_as_float lon)
      latv lonv (get_geo_value_as_float radius))
  | .defined (.f _), .undefined => some false
  | .undefined, .defined (.f _) => some false
  | .undefined, .undefined => some false
  | _, _ => none

/-- The `AST_SPECIAL_STRING` case of `match_special_expr`: the attribute
    is resolved by name via `get_string_attr`. -/
def match_special_string (config : Config) (event : Event) (op : StrOp)
    (attr : AttrVar) (pattern : List Char) : Option Bool :=
  match get_variable config (config.attrId attr.attr) event with
  | .missing => none
  | .undefined => some false
  | .defined (.s sv) =>
    match op with
    | .strContains => some (contains sv.text pattern)
    | .strStarts => some (starts_with sv.text pattern)
    | .strEnds => some (ends_with sv.text pattern)
  | .defined _ => none

/-! ## Memoized recursive evaluation (`match_node_inner`)

The memoization table (`struct memoize`) is a pair of bitsets indexed by
predicate id; it is modelled as two id sets and threaded as explicit
state.  The evaluator additionally returns the list of ids whose
predicates were actually computed (a cache-miss entered the compute path),
ghost instrumentation used to state the at-most-once property.  The
`report` counters of the C code are derived from that list and are not
modelled separately; `is_top_level` only feeds the report. -/

/-- `struct memoize`: `pass` and `fail` bitsets. -/
structure Memoize where
  pass : List Nat
  fail : List Nat
deriving DecidableEq, Repr

/-- `memoize_make` (a fresh table: all bits clear). -/
def memoize_make : Memoize := ⟨[], []⟩

/-- The memo consult at the head of `match_node_inner`: `some r` is a hit
    with cached result `r`. -/
def memo_check (mo : Option Memoize) (i : Nat) : Option Bool :=
  match mo with
  | none => none
  | some m =>
    if m.pass.contains i then some true
    else if m.fail.contains i then some false
    else none

/-- The `set_bit` store at the tail of `match_node_inner`: sets exactly one
    of the two bits for id `i` according to the result. -/
def memo_store (mo : Option Memoize) (i : Nat) (r : Bool) : Option Memoize :=
  match mo with
  | none => none
  | some m =>
    some (if r then { m with pass := i :: m.pass }
          else { m with fail := i :: m.fail })

/-- Result of one `match_node_inner` call: the boolean outcome (`none` =
    aborted), the table state afterwards, and the ids computed. -/
structure EvalOut where
  result : Option Bool
  memo : Option Memoize
  evald : List Nat
deriving Repr

/-- Wraps a computed (cache-missed) node result: record the id as
    evaluated and store its bit when the computation returned. -/
def finish_node (i : Nat) (r : Option Bool) (mo : Option Memoize)
    (ev : List Nat) : EvalOut :=
  match r with
  | none => ⟨none, mo, i :: ev⟩
  | some b => ⟨some b, memo_store mo i b, i :: ev⟩

/-- The shape every leaf case of `match_node_inner` takes: consult the
    memo on the node's id, on miss compute the leaf's match result and
    store the bit. -/
def leaf_eval (i : Nat) (res : Option Bool) (mo : Option Memoize) :
    EvalOut :=
  match memo_check mo i with
  | some r => ⟨some r, mo, []⟩
  | none => finish_node i res mo []

/-- `match_node_inner` from `src/ast.c` (with `match_bool_expr` inlined at
    the `AST_TYPE_BOOL_EXPR` case, exactly as the two functions compose):
    consult the memo on the node's id; on miss dispatch on the node type,
    short-circuiting `AND`/`OR` on the left, then store the bit. -/
def match_node_inner (config : Config) (event : Event)
    (geoFn : Rat → Rat → Rat → Rat → Rat → Bool) :
    AstNode → Option Memoize → EvalOut
  | n@(.numericCompare _ op attr value), mo =>
    leaf_eval n.id (match_numeric_compare_expr config event op attr value) mo
  | n@(.equality _ op attr value), mo =>
    leaf_eval n.id (match_equality_expr config event op attr value) mo
  | n@(.boolVariable _ attr), mo =>
    leaf_eval n.id (match_bool_variable config event attr) mo
  | n@(.boolNot _ child), mo =>
    match memo_check mo n.id with
    | some r => ⟨some r, mo, []⟩
    | none =>
      let o := match_node_inner config event geoFn child mo
      match o.result with
      | none => ⟨none, o.memo, n.id :: o.evald⟩
      | some b => finish_node n.id (some (! b)) o.memo o.evald
  | n@(.boolAnd _ lhs rhs), mo =>
    match memo_check mo n.id with
    | some r => ⟨some r, mo, []⟩
    | none =>
      let ol := match_node_inner config event geoFn lhs mo
      match ol.result with
      | none => ⟨none, ol.memo, n.id :: ol.evald⟩
      | some false => finish_node n.id (some false) ol.memo ol.evald
      | some true =>
        let orr := match_node_inner config event geoFn rhs ol.memo
        finish_node n.id orr.result orr.memo (ol.evald ++ orr.evald)
  | n@(.boolOr _ lhs rhs), mo =>
    match memo_check mo n.id with
    | some r => ⟨some r, mo, []⟩
    | none =>
      let ol := match_node_inner config event geoFn lhs mo
      match ol.result with
      | none => ⟨none, ol.memo, n.id :: ol.evald⟩
      | some true => finish_node n.id (some true) ol.memo ol.evald
      | some false =>
        let orr := match_node_inner config event geoFn rhs ol.memo
        finish_node n.id orr.result orr.memo (ol.evald ++ orr.evald)
  | n@(.setNode _ op left right), mo =>
    leaf_eval n.id (match_set_expr config event op left right) mo
  | n@(.listNode _ op attr value), mo =>
    leaf_eval n.id (match_list_expr config event op attr value) mo
  | n@(.specialFrequency _ ftype _ ns value length), mo =>
    leaf_eval n.id (match_special_frequency config event ftype ns value length)
      mo
  | n@(.specialSegment _ op hasVariable attr segment_id seconds), mo =>
    leaf_eval n.id
      (match_special_segment config event op hasVariable attr segment_id
        seconds) mo
  | n@(.specialGeo _ lat lon _ radius), mo =>
    leaf_eval n.id (match_special_geo config event geoFn lat lon radius) mo
  | n@(.specialString _ op attr pattern), mo =>
    leaf_eval n.id (match_special_string config event op attr pattern) mo

/-- `match_node` from `src/ast.c`: the entry point (`is_top_level = true`
    only affects the report counters). -/
def match_node (config : Config) (event : Event)
    (geoFn : Rat → Rat → Rat → Rat → Rat → Bool) (n : AstNode)
    (mo : Option Memoize) : EvalOut :=
  match_node_inner config event geoFn n mo

/-- Evaluation without a memoization table (`memoize = NULL`): just the
    boolean outcome. -/
def evalNM (config : Config) (event : Event)
    (geoFn : Rat → Rat → Rat → Rat → Rat → Bool) (n : AstNode) :
    Option Bool :=
  (match_node_inner config event geoFn n none).result

/-- A sequence of `match_node` calls sharing one memoization table over one
    event; stops when a call aborts.  Returns the final table and all ids
    computed. -/
def run_seq (config : Config) (event : Event)
    (geoFn : Rat → Rat → Rat → Rat → Rat → Bool) :
    List AstNode → Option Memoize → Option Memoize × List Nat
  | [], mo => (mo, [])
  | n :: rest, mo =>
    let o := match_node config event geoFn n mo
    match o.result with
    | none => (o.memo, o.evald)
    | some _ =>
      let (m', ev') := run_seq config event geoFn rest o.memo
      (m', o.evald ++ ev')

/-- All nodes of a tree (the node itself and its descendants). -/
def AstNode.subnodes : AstNode → List AstNode
  | n@(.boolNot _ child) => n :: child.subnodes
  | n@(.boolAnd _ lhs rhs) => n :: (lhs.subnodes ++ rhs.subnodes)
  | n@(.boolOr _ lhs rhs) => n :: (lhs.subnodes ++ rhs.subnodes)
  | n => [n]

/-- All ids of a tree. -/
def AstNode.subIds (n : AstNode) : List Nat := n.subnodes.map AstNode.id

/-- No node shares its id with one of its strict descendants — true of any
    id assignment produced by structural hash-consing, since a tree is
    never structurally equal to its own strict subtree. -/
def AstNode.properIds : AstNode → Bool
  | .boolNot i child => ! child.subIds.contains i && child.properIds
  | .boolAnd i lhs rhs =>
    ! lhs.subIds.contains i && ! rhs.subIds.contains i &&
      lhs.properIds && rhs.properIds
  | .boolOr i lhs rhs =>
    ! lhs.subIds.contains i && ! rhs.subIds.contains i &&
      lhs.properIds && rhs.properIds
  | _ => true

/-- Ids are consistent over a tree: any two subnodes carrying the same id
    evaluate (without memoization) to the same outcome — the invariant
    established by the predicate interner, which gives one id to one
    predicate. -/
def IdConsistent (config : Config) (event : Event)
    (geoFn : Rat → Rat → Rat → Rat → Rat → Bool) (root : AstNode) : Prop :=
  ∀ k ∈ root.subnodes, ∀ k2 ∈ root.subnodes, k.id = k2.id →
    evalNM config event geoFn k = evalNM config event geoFn k2

/-! ## C5 — `starts_with` -/

/-- C5: the claim states that `starts_with(value, pattern)` is true iff
    `pattern` is a prefix of `value`, and in particular false when the
    pattern occurs only at a non-zero offset.  The code disagrees: its body
    is the same `strstr` substring test as `contains`, so on
    `value = "xab"`, `pattern = "ab"` it returns `true` although `"ab"` is
    not a prefix of `"xab"`.  Given the function's name, the spec text and
    the deliberate suffix arithmetic in the neighbouring `ends_with`, the
    code is a copy-paste slip. -/
theorem starts_with_substring_not_prefix :
    starts_with "xab".toList "ab".toList = true ∧
    prefix_of "ab".toList "xab".toList = false := by
  exact ⟨by decide, by decide⟩

/-! ## C7 — `segment_within` -/

/-- C7: on a segments list sorted by id ascending, `segment_within`
    returns the window test of the first entry whose id equals
    `segment_id`, and false when no entry has that id (the scan stops as
    soon as a larger id is seen). -/
theorem segment_within_correct (segment_id after_seconds now : Int)
    (segments : List Segment)
    (hsorted : segments.Pairwise (fun a b => a.id ≤ b.id)) :
    segment_within segment_id after_seconds segments now =
      match segments.find? (fun s => decide (s.id = segment_id)) with
      | none => false
      | some s => decide (now - after_seconds ≤ cdiv s.timestamp 1000000) := by
  induction segments with
  | nil => rfl
  | cons s rest ih =>
    rcases List.pairwise_cons.mp hsorted with ⟨hle, hrest⟩
    by_cases h1 : s.id < segment_id
    · have hne : ¬ (s.id = segment_id) := by omega
      have hfind : List.find? (fun t => decide (t.id = segment_id)) (s :: rest)
          = List.find? (fun t => decide (t.id = segment_id)) rest :=
        List.find?_cons_of_neg _ (by simpa using hne)
      simp only [segment_within, if_pos h1, hfind]
      exact ih hrest
    · by_cases h2 : s.id = segment_id
      · have hfind : List.find? (fun t => decide (t.id = segment_id)) (s :: rest)
            = some s :=
          List.find?_cons_of_pos _ (by simpa using h2)
        simp only [segment_within, if_neg h1, if_pos h2, hfind]
      · have hnone : List.find? (fun t => decide (t.id = segment_id)) rest
            = none := by
          rw [List.find?_eq_none]
          intro t ht
          have := hle t ht
          simp only [decide_eq_true_eq]
          omega
        have hfind : List.find? (fun t => decide (t.id = segment_id)) (s :: rest)
            = none := by
          rw [List.find?_cons_of_neg _ (by simpa using h2)]
          exact hnone
        simp only [segment_within, if_neg h1, if_neg h2, hfind]

/-- C7 witness: a concrete sorted list where the id is found past a
    smaller entry. -/
theorem segment_within_correct_witness :
    segment_within 42 600 [⟨10, 5⟩, ⟨42, 1699999700000000⟩] 1700000000 =
      true := by
  have h := segment_within_correct 42 600 1700000000
    [⟨10, 5⟩, ⟨42, 1699999700000000⟩] (by decide)
  rw [h]; decide

/-! ## C6 — `within_frequency_caps` -/

/-- The frequency-cap rule exactly as the claim words it, reading the
    window comparison `now − (cap.timestamp / 1_000_000) > length` over
    mathematical integers. -/
def freq_cap_claimed (caps : List FrequencyCap) (type : FreqType)
    (id : Nat) (namespc : StringValue) (value : Nat) (length : Nat)
    (now : Int) : Bool :=
  match caps.find?
      (fun c => decide (c.id = id ∧ c.ns.str = namespc.str ∧ c.type = type)) with
  | none => true
  | some c =>
    if length ≤ 0 then decide (value > c.value)
    else if ¬ c.timestamp_defined then true
    else if now - cdiv c.timestamp 1000000 > (length : Int) then true
    else decide (value > c.value)

/-- The frequency-cap rule as amended: the window comparison converts the
    signed difference to an unsigned 64-bit integer (the C `int64_t` vs
    `size_t` comparison), so a cap whose timestamp lies in the future also
    counts as an expired window. -/
def freq_cap_amended (caps : List FrequencyCap) (type : FreqType)
    (id : Nat) (namespc : StringValue) (value : Nat) (length : Nat)
    (now : Int) : Bool :=
  match caps.find?
      (fun c => decide (c.id = id ∧ c.ns.str = namespc.str ∧ c.type = type)) with
  | none => true
  | some c =>
    if length ≤ 0 then decide (value > c.value)
    else if ¬ c.timestamp_defined then true
    else if toU64 (now - cdiv c.timestamp 1000000) > length then true
    else decide (value > c.value)

/-- C6 counterexample: a matching cap whose timestamp (2 seconds, in
    microseconds) lies in the future of `now = 1` with `value = 5` not
    exceeding `cap.value = 10` and a 100-second window.  The claim's
    arithmetic reads `1 − 2 > 100` as false and yields
    `value > cap.value = false`, but the code converts `−1` to `2^64 − 1`,
    sees the window as expired, and returns true. -/
theorem within_frequency_caps_counterexample :
    within_frequency_caps [⟨.advertiser, 20, ⟨[], 0, 5⟩, 10, true, 2000000⟩]
        .advertiser 20 ⟨[], 0, 5⟩ 5 100 1 = true ∧
    freq_cap_claimed [⟨.advertiser, 20, ⟨[], 0, 5⟩, 10, true, 2000000⟩]
        .advertiser 20 ⟨[], 0, 5⟩ 5 100 1 = false := by
  exact ⟨by decide, by decide⟩

/-- C6 as amended: `within_frequency_caps` returns true when no cap
    matches on `(type, id, namespace string id)`; otherwise the first
    matching cap decides: `length = 0` → `value > cap.value`; undefined
    timestamp → true; unsigned-compared expired window → true; otherwise
    `value > cap.value`. -/
theorem within_frequency_caps_amended (caps : List FrequencyCap)
    (type : FreqType) (id : Nat) (namespc : StringValue) (value : Nat)
    (length : Nat) (now : Int) :
    within_frequency_caps caps type id namespc value length now =
      freq_cap_amended caps type id namespc value length now := by
  induction caps with
  | nil => rfl
  | cons c rest ih =>
    by_cases h : (c.id = id ∧ c.ns.str = namespc.str ∧ c.type = type)
    · have hfind : List.find?
          (fun c => decide (c.id = id ∧ c.ns.str = namespc.str ∧ c.type = type))
          (c :: rest) = some c :=
        List.find?_cons_of_pos _ (by simpa using h)
      simp only [within_frequency_caps, if_pos h, freq_cap_amended, hfind]
      split_ifs <;> simp_all
    · have hfind : List.find?
          (fun c => decide (c.id = id ∧ c.ns.str = namespc.str ∧ c.type = type))
          (c :: rest) = List.find?
          (fun c => decide (c.id = id ∧ c.ns.str = namespc.str ∧ c.type = type))
          rest :=
        List.find?_cons_of_neg _ (by simpa using h)
      simp only [within_frequency_caps, if_neg h, freq_cap_amended, hfind]
      simp only [freq_cap_amended] at ih
      exact ih

/-! ## C10 — first-binding-wins lookup -/

/-- Scanning for an id different from `a` skips an `(a, w)` entry
    wherever it sits. -/
theorem get_variable_go_skip (config : Config) (b a : Nat) (w : Value)
    (zs : List Pred) (hba : b ≠ a) :
    ∀ l1 : List Pred,
      get_variable.go config b (l1 ++ ⟨a, w⟩ :: zs) =
        get_variable.go config b (l1 ++ zs) := by
  intro l1
  induction l1 with
  | nil => simp [get_variable.go, hba]
  | cons p rest ih =>
    by_cases hp : b = p.variable_id
    · simp [get_variable.go, hp]
    · simp only [List.cons_append, get_variable.go, if_neg hp]
      exact ih

/-- Removing a duplicate binding that sits after an earlier binding of the
    same attribute does not change any lookup. -/
theorem get_variable_dup_erase (config : Config) (xs ys zs : List Pred)
    (a : Nat) (v w : Value) :
    ∀ b, get_variable config b ⟨xs ++ ⟨a, v⟩ :: (ys ++ ⟨a, w⟩ :: zs)⟩ =
      get_variable config b ⟨xs ++ ⟨a, v⟩ :: (ys ++ zs)⟩ := by
  intro b
  simp only [get_variable]
  induction xs with
  | nil =>
    by_cases hb : b = a
    · simp [get_variable.go, hb]
    · simp only [List.nil_append, get_variable.go, if_neg hb]
      exact get_variable_go_skip config b a w zs hb ys
  | cons p rest ih =>
    by_cases hp : b = p.variable_id
    · simp [get_variable.go, hp]
    · simp only [List.cons_append, get_variable.go, if_neg hp]
      exact ih

/-- Evaluation reads the event only through `get_variable`: two events
    with identical lookups evaluate identically, memo table included. -/
theorem match_node_inner_event_congr (config : Config)
    (geoFn : Rat → Rat → Rat → Rat → Rat → Bool) (e e2 : Event)
    (h : ∀ x, get_variable config x e = get_variable config x e2) :
    ∀ (n : AstNode) (mo : Option Memoize),
      match_node_inner config e geoFn n mo =
        match_node_inner config e2 geoFn n mo := by
  intro n
  induction n with
  | numericCompare i op attr value =>
    intro mo
    simp only [match_node_inner, match_numeric_compare_expr, h]
  | equality i op attr value =>
    intro mo
    simp only [match_node_inner, match_equality_expr, h]
  | boolVariable i attr =>
    intro mo
    simp only [match_node_inner, match_bool_variable, h]
  | boolNot i child ih =>
    intro mo
    simp only [match_node_inner, ih]
  | boolAnd i lhs rhs ihl ihr =>
    intro mo
    simp only [match_node_inner, ihl, ihr]
  | boolOr i lhs rhs ihl ihr =>
    intro mo
    simp only [match_node_inner, ihl, ihr]
  | setNode i op left right =>
    intro mo
    simp only [match_node_inner, match_set_expr, h]
  | listNode i op attr value =>
    intro mo
    simp only [match_node_inner, match_list_expr, h]
  | specialFrequency i ftype attr ns value length =>
    intro mo
    simp only [match_node_inner, match_special_frequency, h]
  | specialSegment i op hasVariable attr segment_id seconds =>
    intro mo
    simp only [match_node_inner, match_special_segment, h]
  | specialGeo i lat lon hasRadius radius =>
    intro mo
    simp only [match_node_inner, match_special_geo, h]
  | specialString i op attr pattern =>
    intro mo
    simp only [match_node_inner, match_special_string, h]

/-- C10: with duplicate bindings of one attribute id in the event,
    `get_variable` returns the earliest entry's value as
    `VARIABLE_DEFINED`, and a duplicate entry sitting after an earlier
    binding of the same attribute has no influence on any evaluation. -/
theorem get_variable_first_binding (config : Config)
    (geoFn : Rat → Rat → Rat → Rat → Rat → Bool) (xs ys zs : List Pred)
    (a : Nat) (v w : Value) (n : AstNode) (mo : Option Memoize) :
    ((∀ p ∈ xs, p.variable_id ≠ a) →
      get_variable config a ⟨xs ++ ⟨a, v⟩ :: ys⟩ = .defined v) ∧
    match_node_inner config ⟨xs ++ ⟨a, v⟩ :: (ys ++ ⟨a, w⟩ :: zs)⟩ geoFn n mo =
      match_node_inner config ⟨xs ++ ⟨a, v⟩ :: (ys ++ zs)⟩ geoFn n mo := by
  constructor
  · intro hxs
    simp only [get_variable]
    induction xs with
    | nil => simp [get_variable.go]
    | cons p rest ih =>
      have hp : a ≠ p.variable_id := fun hc =>
        hxs p (by simp) hc.symm
      simp only [List.cons_append, get_variable.go, if_neg hp]
      exact ih (fun q hq => hxs q (by simp [hq]))
  · exact match_node_inner_event_congr config geoFn _ _
      (get_variable_dup_erase config xs ys zs a v w) n mo

/-- C10 witness: a duplicate binding of attribute 1 is ignored; lookup
    returns the earliest entry. -/
theorem get_variable_first_binding_witness :
    get_variable ⟨fun _ => 0, fun _ => true⟩ 1
        ⟨[⟨2, .i 9⟩, ⟨1, .i 5⟩]⟩ = .defined (.i 5) ∧
    match_node_inner ⟨fun _ => 0, fun _ => true⟩
        ⟨[⟨2, .i 9⟩, ⟨1, .i 5⟩, ⟨1, .i 7⟩]⟩ (fun _ _ _ _ _ => true)
        (.equality 0 .eq ⟨[], 1⟩ (.i 5)) none =
      match_node_inner ⟨fun _ => 0, fun _ => true⟩
        ⟨[⟨2, .i 9⟩, ⟨1, .i 5⟩]⟩ (fun _ _ _ _ _ => true)
        (.equality 0 .eq ⟨[], 1⟩ (.i 5)) none := by
  have h := get_variable_first_binding ⟨fun _ => 0, fun _ => true⟩
    (fun _ _ _ _ _ => true) [⟨2, .i 9⟩] [] [] 1 (.i 5) (.i 7)
    (.equality 0 .eq ⟨[], 1⟩ (.i 5)) none
  exact ⟨h.1 (by decide), h.2⟩

/-! ## Unfolding lemmas for unmemoized evaluation -/

theorem leaf_eval_none_result (i : Nat) (res : Option Bool) :
    (leaf_eval i res none).result = res := by
  cases res <;> rfl

theorem leaf_eval_none_memo (i : Nat) (res : Option Bool) :
    (leaf_eval i res none).memo = none := by
  cases res <;> rfl

/-- Evaluation without a table never materializes one. -/
theorem match_node_inner_none_memo (config : Config) (event : Event)
    (geoFn : Rat → Rat → Rat → Rat → Rat → Bool) :
    ∀ n : AstNode, (match_node_inner config event geoFn n none).memo = none := by
  intro n
  induction n with
  | boolNot i child ih =>
    simp only [match_node_inner, memo_check]
    cases hr : (match_node_inner config event geoFn child none).result with
    | none => simpa [hr] using ih
    | some b =>
      simp only [hr, finish_node, memo_store]
      rw [ih]
  | boolAnd i lhs rhs ihl ihr =>
    simp only [match_node_inner, memo_check]
    cases hr : (match_node_inner config event geoFn lhs none).result with
    | none => simpa [hr] using ihl
    | some b =>
      cases b
      · simp only [hr, finish_node, memo_store]
        rw [ihl]
      · simp only [hr, ihl, finish_node, memo_store]
        cases hr2 : (match_node_inner config event geoFn rhs none).result <;>
          simp only [hr2, finish_node, memo_store] <;> rw [ihr]
  | boolOr i lhs rhs ihl ihr =>
    simp only [match_node_inner, memo_check]
    cases hr : (match_node_inner config event geoFn lhs none).result with
    | none => simpa [hr] using ihl
    | some b =>
      cases b
      · simp only [hr, ihl, finish_node, memo_store]
        cases hr2 : (match_node_inner config event geoFn rhs none).result <;>
          simp only [hr2, finish_node, memo_store] <;> rw [ihr]
      · simp only [hr, finish_node, memo_store]
        rw [ihl]
  | numericCompare i op attr value => exact leaf_eval_none_memo _ _
  | equality i op attr value => exact leaf_eval_none_memo _ _
  | boolVariable i attr => exact leaf_eval_none_memo _ _
  | setNode i op left right => exact leaf_eval_none_memo _ _
  | listNode i op attr value => exact leaf_eval_none_memo _ _
  | specialFrequency i ftype attr ns value length => exact leaf_eval_none_memo _ _
  | specialSegment i op hasVariable attr segment_id seconds =>
    exact leaf_eval_none_memo _ _
  | specialGeo i lat lon hasRadius radius => exact leaf_eval_none_memo _ _
  | specialString i op attr pattern => exact leaf_eval_none_memo _ _

theorem evalNM_numericCompare (config : Config) (event : Event)
    (geoFn : Rat → Rat → Rat → Rat → Rat → Bool) (i : Nat)
    (op : NumCompareOp) (attr : AttrVar) (value : NumCompareValue) :
    evalNM config event geoFn (.numericCompare i op attr value) =
      match_numeric_compare_expr config event op attr value := by
  simp only [evalNM, match_node_inner]
  exact leaf_eval_none_result _ _

theorem evalNM_equality (config : Config) (event : Event)
    (geoFn : Rat → Rat → Rat → Rat → Rat → Bool) (i : Nat)
    (op : EqualityOp) (attr : AttrVar) (value : EqualityValue) :
    evalNM config event geoFn (.equality i op attr value) =
      match_equality_expr config event op attr value := by
  simp only [evalNM, match_node_inner]
  exact leaf_eval_none_result _ _

theorem evalNM_boolVariable (config : Config) (event : Event)
    (geoFn : Rat → Rat → Rat → Rat → Rat → Bool) (i : Nat) (attr : AttrVar) :
    evalNM config event geoFn (.boolVariable i attr) =
      match_bool_variable config event attr := by
  simp only [evalNM, match_node_inner]
  exact leaf_eval_none_result _ _

theorem evalNM_setNode (config : Config) (event : Event)
    (geoFn : Rat → Rat → Rat → Rat → Rat → Bool) (i : Nat) (op : SetOp)
    (left : SetLeftValue) (right : SetRightValue) :
    evalNM config event geoFn (.setNode i op left right) =
      match_set_expr config event op left right := by
  simp only [evalNM, match_node_inner]
  exact leaf_eval_none_result _ _

theorem evalNM_listNode (config : Config) (event : Event)
    (geoFn : Rat → Rat → Rat → Rat → Rat → Bool) (i : Nat) (op : ListOp)
    (attr : AttrVar) (value : ListValue) :
    evalNM config event geoFn (.listNode i op attr value) =
      match_list_expr config event op attr value := by
  simp only [evalNM, match_node_inner]
  exact leaf_eval_none_result _ _

theorem evalNM_specialFrequency (config : Config) (event : Event)
    (geoFn : Rat → Rat → Rat → Rat → Rat → Bool) (i : Nat)
    (ftype : FreqType) (attr : AttrVar) (ns : StringValue) (value : Int)
    (length : Nat) :
    evalNM config event geoFn (.specialFrequency i ftype attr ns value length) =
      match_special_frequency config event ftype ns value length := by
  simp only [evalNM, match_node_inner]
  exact leaf_eval_none_result _ _

theorem evalNM_specialSegment (config : Config) (event : Event)
    (geoFn : Rat → Rat → Rat → Rat → Rat → Bool) (i : Nat) (op : SegmentOp)
    (hasVariable : Bool) (attr : AttrVar) (segment_id : Int) (seconds : Int) :
    evalNM config event geoFn
        (.specialSegment i op hasVariable attr segment_id seconds) =
      match_special_segment config event op hasVariable attr segment_id
        seconds := by
  simp only [evalNM, match_node_inner]
  exact leaf_eval_none_result _ _

theorem evalNM_specialGeo (config : Config) (event : Event)
    (geoFn : Rat → Rat → Rat → Rat → Rat → Bool) (i : Nat)
    (lat lon : GeoValue) (hasRadius : Bool) (radius : GeoValue) :
    evalNM config event geoFn (.specialGeo i lat lon hasRadius radius) =
      match_special_geo config event geoFn lat lon radius := by
  simp only [evalNM, match_node_inner]
  exact leaf_eval_none_result _ _

theorem evalNM_specialString (config : Config) (event : Event)
    (geoFn : Rat → Rat → Rat → Rat → Rat → Bool) (i : Nat) (op : StrOp)
    (attr : AttrVar) (pattern : List Char) :
    evalNM config event geoFn (.specialString i op attr pattern) =
      match_special_string config event op attr pattern := by
  simp only [evalNM, match_node_inner]
  exact leaf_eval_none_result _ _

theorem evalNM_boolNot (config : Config) (event : Event)
    (geoFn : Rat → Rat → Rat → Rat → Rat → Bool) (i : Nat) (child : AstNode) :
    evalNM config event geoFn (.boolNot i child) =
      (evalNM config event geoFn child).map (fun b => ! b) := by
  cases hr : (match_node_inner config event geoFn child none).result <;>
    simp [evalNM, match_node_inner, memo_check, finish_node, memo_store, hr]

theorem evalNM_boolAnd (config : Config) (event : Event)
    (geoFn : Rat → Rat → Rat → Rat → Rat → Bool) (i : Nat) (lhs rhs : AstNode) :
    evalNM config event geoFn (.boolAnd i lhs rhs) =
      match evalNM config event geoFn lhs with
      | none => none
      | some false => some false
      | some true => evalNM config event geoFn rhs := by
  cases hr : (match_node_inner config event geoFn lhs none).result with
  | none => simp [evalNM, match_node_inner, memo_check, hr]
  | some b =>
    cases b
    · simp [evalNM, match_node_inner, memo_check, finish_node, memo_store, hr]
    · simp only [evalNM, match_node_inner, memo_check, hr,
        match_node_inner_none_memo]
      cases hr2 : (match_node_inner config event geoFn rhs none).result <;>
        simp [finish_node, memo_store, hr2]

theorem evalNM_boolOr (config : Config) (event : Event)
    (geoFn : Rat → Rat → Rat → Rat → Rat → Bool) (i : Nat) (lhs rhs : AstNode) :
    evalNM config event geoFn (.boolOr i lhs rhs) =
      match evalNM config event geoFn lhs with
      | none => none
      | some true => some true
      | some false => evalNM config event geoFn rhs := by
  cases hr : (match_node_inner config event geoFn lhs none).result with
  | none => simp [evalNM, match_node_inner, memo_check, hr]
  | some b =>
    cases b
    · simp only [evalNM, match_node_inner, memo_check, hr,
        match_node_inner_none_memo]
      cases hr2 : (match_node_inner config event geoFn rhs none).result <;>
        simp [finish_node, memo_store, hr2]
    · simp [evalNM, match_node_inner, memo_check, finish_node, memo_store, hr]

/-! ## C9 — short-circuit -/

/-- C9: `AND` with a false left operand returns false without evaluating
    the right operand at all — in particular a right operand whose
    attributes are missing (whose own evaluation would be a fatal
    assertion) causes no fatal; symmetrically `OR` with a true left
    operand returns true. -/
theorem short_circuit_no_fatal (config : Config) (event : Event)
    (geoFn : Rat → Rat → Rat → Rat → Rat → Bool) (i : Nat)
    (lhs rhs : AstNode) :
    (evalNM config event geoFn lhs = some false →
      evalNM config event geoFn (.boolAnd i lhs rhs) = some false) ∧
    (evalNM config event geoFn lhs = some true →
      evalNM config event geoFn (.boolOr i lhs rhs) = some true) := by
  constructor
  · intro h
    rw [evalNM_boolAnd, h]
  · intro h
    rw [evalNM_boolOr, h]

/-- C9 witness: the right operand alone evaluates to a fatal `none`
    (attribute 2 missing with `allow_undefined = false`), yet the `AND`
    with a false left operand returns false. -/
theorem short_circuit_no_fatal_witness :
    evalNM ⟨fun _ => 0, fun v => v = 1⟩ ⟨[⟨1, .i 0⟩]⟩ (fun _ _ _ _ _ => true)
        (.boolAnd 2 (.equality 0 .eq ⟨[], 1⟩ (.i 1))
          (.equality 1 .eq ⟨[], 2⟩ (.i 1))) = some false ∧
    evalNM ⟨fun _ => 0, fun v => v = 1⟩ ⟨[⟨1, .i 0⟩]⟩ (fun _ _ _ _ _ => true)
        (.equality 1 .eq ⟨[], 2⟩ (.i 1)) = none := by
  refine ⟨(short_circuit_no_fatal ⟨fun _ => 0, fun v => v = 1⟩ ⟨[⟨1, .i 0⟩]⟩
    (fun _ _ _ _ _ => true) 2 (.equality 0 .eq ⟨[], 1⟩ (.i 1))
    (.equality 1 .eq ⟨[], 2⟩ (.i 1))).1 (by decide), by decide⟩

/-! ## C3 — three-valued undefined -/

/-- Leaf nodes: everything except the compound boolean operators. -/
def AstNode.isLeaf : AstNode → Bool
  | .boolNot .. | .boolAnd .. | .boolOr .. => false
  | _ => true

/-- Leaf nodes with a single attribute lookup and a valid shape: their
    evaluation is decided by that one lookup alone. -/
def AstNode.isSimpleLeaf : AstNode → Bool
  | .numericCompare .. => true
  | .equality .. => true
  | .boolVariable .. => true
  | .listNode .. => true
  | .setNode _ _ (.i _) (.variableValue _) => true
  | .setNode _ _ (.s _) (.variableValue _) => true
  | .setNode _ _ (.variableValue _) (.il _) => true
  | .setNode _ _ (.variableValue _) (.sl _) => true
  | .specialString .. => true
  | _ => false

/-- The attribute a leaf predicate is *about*: the resolved variable id
    for comparisons, equalities, boolean variables, sets and lists; the
    name-resolved implicit or explicit attribute for special predicates
    (exactly the id their evaluation passes to `get_variable`). -/
def leafVar (config : Config) : AstNode → Option Nat
  | .numericCompare _ _ attr _ => some attr.var
  | .equality _ _ attr _ => some attr.var
  | .boolVariable _ attr => some attr.var
  | .setNode _ _ (.variableValue av) (.il _) => some av.var
  | .setNode _ _ (.variableValue av) (.sl _) => some av.var
  | .setNode _ _ (.i _) (.variableValue av) => some av.var
  | .setNode _ _ (.s _) (.variableValue av) => some av.var
  | .listNode _ _ attr _ => some attr.var
  | .specialFrequency .. => some (config.attrId "frequency_caps".toList)
  | .specialSegment _ _ hasVariable attr _ _ =>
    some (config.attrId
      (if hasVariable then attr.attr else "segments_with_timestamp".toList))
  | .specialGeo .. => some (config.attrId "latitude".toList)
  | .specialString _ _ attr _ => some (config.attrId attr.attr)
  | _ => none

/-- C3: a leaf over an attribute that is absent from the event but
    declared `allow_undefined` (i.e. `get_variable` reports
    `VARIABLE_UNDEFINED`) matches false — unconditionally for the
    single-lookup leaf shapes, and for every leaf shape whenever the
    evaluation returns at all (a multi-attribute special can still abort
    on one of its *other* attributes); `NOT` of such a leaf matches true;
    and the leaf's false propagates through `AND`/`OR` as ordinary boolean
    short-circuit, not as an error. -/
theorem undefined_leaf_matches_false (config : Config) (event : Event)
    (geoFn : Rat → Rat → Rat → Rat → Rat → Bool) (a j : Nat)
    (leaf other : AstNode) (hLeaf : leaf.isLeaf = true)
    (hVar : leafVar config leaf = some a)
    (hU : get_variable config a event = .undefined) :
    (∀ b, evalNM config event geoFn leaf = some b → b = false) ∧
    (∀ b, evalNM config event geoFn (.boolNot j leaf) = some b → b = true) ∧
    (leaf.isSimpleLeaf = true →
      evalNM config event geoFn leaf = some false ∧
      evalNM config event geoFn (.boolNot j leaf) = some true) ∧
    (evalNM config event geoFn leaf = some false →
      evalNM config event geoFn (.boolAnd j leaf other) = some false ∧
      evalNM config event geoFn (.boolOr j leaf other) =
        evalNM config event geoFn other) := by
  have hEval : evalNM config event geoFn leaf = some false ∨
      evalNM config event geoFn leaf = none := by
    cases leaf with
    | numericCompare i op attr value =>
      have ha : attr.var = a := by
        simpa [leafVar] using hVar
      left
      rw [evalNM_numericCompare]
      simp [match_numeric_compare_expr, ha, hU]
    | equality i op attr value =>
      have ha : attr.var = a := by
        simpa [leafVar] using hVar
      left
      rw [evalNM_equality]
      simp [match_equality_expr, ha, hU]
    | boolVariable i attr =>
      have ha : attr.var = a := by
        simpa [leafVar] using hVar
      left
      rw [evalNM_boolVariable]
      simp [match_bool_variable, ha, hU]
    | boolNot i child => simp [AstNode.isLeaf] at hLeaf
    | boolAnd i lhs rhs => simp [AstNode.isLeaf] at hLeaf
    | boolOr i lhs rhs => simp [AstNode.isLeaf] at hLeaf
    | setNode i op left right =>
      rw [evalNM_setNode]
      cases left with
      | i n =>
        cases right with
        | variableValue av =>
          have ha : av.var = a := by simpa [leafVar] using hVar
          left
          simp [match_set_expr, ha, hU]
        | il l => simp [leafVar] at hVar
        | sl l => simp [leafVar] at hVar
      | s sv =>
        cases right with
        | variableValue av =>
          have ha : av.var = a := by simpa [leafVar] using hVar
          left
          simp [match_set_expr, ha, hU]
        | il l => simp [leafVar] at hVar
        | sl l => simp [leafVar] at hVar
      | variableValue av =>
        cases right with
        | variableValue av2 => simp [leafVar] at hVar
        | il l =>
          have ha : av.var = a := by simpa [leafVar] using hVar
          left
          simp [match_set_expr, ha, hU]
        | sl l =>
          have ha : av.var = a := by simpa [leafVar] using hVar
          left
          simp [match_set_expr, ha, hU]
    | listNode i op attr value =>
      have ha : attr.var = a := by simpa [leafVar] using hVar
      left
      rw [evalNM_listNode]
      simp [match_list_expr, ha, hU]
    | specialFrequency i ftype attr ns value length =>
      have ha : config.attrId "frequency_caps".toList = a := by
        simpa [leafVar] using hVar
      rw [evalNM_specialFrequency]
      unfold match_special_frequency
      cases hnow : get_variable config (config.attrId ['n', 'o', 'w']) event with
      | missing => right; rfl
      | undefined => left; rfl
      | defined v =>
        cases v with
        | i now => left; rw [ha, hU]
        | b x => right; rfl
        | f q => right; rfl
        | s sv => right; rfl
        | il l => right; rfl
        | sl l => right; rfl
        | segments l => right; rfl
        | frequency l => right; rfl
    | specialSegment i op hasVariable attr segment_id seconds =>
      have ha : config.attrId
          (if hasVariable then attr.attr
           else "segments_with_timestamp".toList) = a := by
        simpa [leafVar] using hVar
      rw [evalNM_specialSegment]
      unfold match_special_segment
      cases hnow : get_variable config (config.attrId ['n', 'o', 'w']) event with
      | missing => right; rfl
      | undefined =>
        simp only []
        rw [ha, hU]
        left; rfl
      | defined v =>
        cases v with
        | i now =>
          simp only []
          rw [ha, hU]
          left; rfl
        | b x => right; rfl
        | f q => right; rfl
        | s sv => right; rfl
        | il l => right; rfl
        | sl l => right; rfl
        | segments l => right; rfl
        | frequency l => right; rfl
    | specialGeo i lat lon hasRadius radius =>
      have ha : config.attrId "latitude".toList = a := by
        simpa [leafVar] using hVar
      rw [evalNM_specialGeo]
      unfold match_special_geo
      rw [ha, hU]
      cases hlon : get_variable config (config.attrId "longitude".toList)
          event with
      | missing => right; rfl
      | undefined => left; rfl
      | defined v =>
        cases v with
        | f q => left; rfl
        | b x => right; rfl
        | i n => right; rfl
        | s sv => right; rfl
        | il l => right; rfl
        | sl l => right; rfl
        | segments l => right; rfl
        | frequency l => right; rfl
    | specialString i op attr pattern =>
      have ha : config.attrId attr.attr = a := by simpa [leafVar] using hVar
      left
      rw [evalNM_specialString]
      simp [match_special_string, ha, hU]
  refine ⟨?_, ?_, ?_, ?_⟩
  · intro b hb
    rcases hEval with h | h
    · rw [h] at hb; exact (Option.some.injEq _ _ ▸ hb).symm ▸ rfl
    · rw [h] at hb; exact absurd hb (by simp)
  · intro b hb
    rw [evalNM_boolNot] at hb
    rcases hEval with h | h
    · rw [h] at hb
      simpa using hb.symm
    · rw [h] at hb
      exact absurd hb (by simp)
  · intro hSimple
    have hF : evalNM config event geoFn leaf = some false := by
      rcases hEval with h | h
      · exact h
      · exfalso
        cases leaf with
        | numericCompare i op attr value =>
          have ha : attr.var = a := by simpa [leafVar] using hVar
          rw [evalNM_numericCompare] at h
          simp [match_numeric_compare_expr, ha, hU] at h
        | equality i op attr value =>
          have ha : attr.var = a := by simpa [leafVar] using hVar
          rw [evalNM_equality] at h
          simp [match_equality_expr, ha, hU] at h
        | boolVariable i attr =>
          have ha : attr.var = a := by simpa [leafVar] using hVar
          rw [evalNM_boolVariable] at h
          simp [match_bool_variable, ha, hU] at h
        | boolNot i child => simp [AstNode.isLeaf] at hLeaf
        | boolAnd i lhs rhs => simp [AstNode.isLeaf] at hLeaf
        | boolOr i lhs rhs => simp [AstNode.isLeaf] at hLeaf
        | listNode i op attr value =>
          have ha : attr.var = a := by simpa [leafVar] using hVar
          rw [evalNM_listNode] at h
          simp [match_list_expr, ha, hU] at h
        | setNode i op left right =>
          rw [evalNM_setNode] at h
          cases left with
          | i n =>
            cases right with
            | variableValue av =>
              have ha : av.var = a := by simpa [leafVar] using hVar
              simp [match_set_expr, ha, hU] at h
            | il l => simp [AstNode.isSimpleLeaf] at hSimple
            | sl l => simp [AstNode.isSimpleLeaf] at hSimple
          | s sv =>
            cases right with
            | variableValue av =>
              have ha : av.var = a := by simpa [leafVar] using hVar
              simp [match_set_expr, ha, hU] at h
            | il l => simp [AstNode.isSimpleLeaf] at hSimple
            | sl l => simp [AstNode.isSimpleLeaf] at hSimple
          | variableValue av =>
            cases right with
            | variableValue av2 => simp [AstNode.isSimpleLeaf] at hSimple
            | il l =>
              have ha : av.var = a := by simpa [leafVar] using hVar
              simp [match_set_expr, ha, hU] at h
            | sl l =>
              have ha : av.var = a := by simpa [leafVar] using hVar
              simp [match_set_expr, ha, hU] at h
        | specialFrequency i ftype attr ns value length =>
          simp [AstNode.isSimpleLeaf] at hSimple
        | specialSegment i op hasVariable attr segment_id seconds =>
          simp [AstNode.isSimpleLeaf] at hSimple
        | specialGeo i lat lon hasRadius radius =>
          simp [AstNode.isSimpleLeaf] at hSimple
        | specialString i op attr pattern =>
          have ha : config.attrId attr.attr = a := by
            simpa [leafVar] using hVar
          rw [evalNM_specialString] at h
          simp [match_special_string, ha, hU] at h
    refine ⟨hF, ?_⟩
    rw [evalNM_boolNot, hF]
    rfl
  · intro hF
    constructor
    · rw [evalNM_boolAnd, hF]
    · rw [evalNM_boolOr, hF]

/-- C3 witness: an integer-equality leaf over absent-but-allowed attribute
    1; the leaf matches false, its negation true, and the false
    short-circuits an `AND`. -/
theorem undefined_leaf_matches_false_witness :
    evalNM ⟨fun _ => 0, fun _ => true⟩ ⟨[]⟩ (fun _ _ _ _ _ => true)
        (.equality 0 .eq ⟨[], 1⟩ (.i 7)) = some false ∧
    evalNM ⟨fun _ => 0, fun _ => true⟩ ⟨[]⟩ (fun _ _ _ _ _ => true)
        (.boolNot 1 (.equality 0 .eq ⟨[], 1⟩ (.i 7))) = some true := by
  exact (undefined_leaf_matches_false ⟨fun _ => 0, fun _ => true⟩ ⟨[]⟩
    (fun _ _ _ _ _ => true) 1 1 (.equality 0 .eq ⟨[], 1⟩ (.i 7))
    (.equality 0 .eq ⟨[], 1⟩ (.i 7)) (by decide) (by decide)
    (by decide)).2.2.1 (by decide)

/-! ## C8 — `NOT_IN` versus `IN` -/

/-- The variable side of a well-shaped set expression (exactly one side is
    a variable). -/
def set_subject : SetLeftValue → SetRightValue → Option AttrVar
  | .i _, .variableValue av => some av
  | .s _, .variableValue av => some av
  | .variableValue av, .il _ => some av
  | .variableValue av, .sl _ => some av
  | _, _ => none

/-- C8 counterexample: with the variable side absent and
    `allow_undefined = true`, `IN` and `NOT_IN` both return false — so on
    such an event `NOT_IN` is not the boolean negation of `IN`, contrary
    to the claim's "including events where the variable side is absent
    with allow_undefined=true". -/
theorem set_not_in_counterexample :
    evalNM ⟨fun _ => 0, fun _ => true⟩ ⟨[]⟩ (fun _ _ _ _ _ => true)
        (.setNode 0 .inSet (.variableValue ⟨[], 1⟩) (.il [1, 2])) =
      some false ∧
    evalNM ⟨fun _ => 0, fun _ => true⟩ ⟨[]⟩ (fun _ _ _ _ _ => true)
        (.setNode 1 .notInSet (.variableValue ⟨[], 1⟩) (.il [1, 2])) =
      some false := by
  exact ⟨by decide, by decide⟩

/-- C8 as amended: for a well-shaped set expression, `NOT_IN` returns the
    boolean negation of `IN` whenever the variable lookup does *not*
    report `VARIABLE_UNDEFINED` (on a fatal lookup both abort); when the
    variable side is absent with `allow_undefined = true`, both `IN` and
    `NOT_IN` return false. -/
theorem set_not_in_complement_amended (config : Config) (event : Event)
    (geoFn : Rat → Rat → Rat → Rat → Rat → Bool) (i j : Nat)
    (left : SetLeftValue) (right : SetRightValue) (av : AttrVar)
    (hav : set_subject left right = some av) :
    (get_variable config av.var event = .undefined →
      evalNM config event geoFn (.setNode i .inSet left right) = some false ∧
      evalNM config event geoFn (.setNode j .notInSet left right) =
        some false) ∧
    (get_variable config av.var event ≠ .undefined →
      evalNM config event geoFn (.setNode j .notInSet left right) =
        (evalNM config event geoFn (.setNode i .inSet left right)).map
          (fun b => ! b)) := by
  rw [evalNM_setNode, evalNM_setNode]
  cases left with
  | i n =>
    cases right with
    | variableValue av2 =>
      have hae : av2 = av := by simpa [set_subject] using hav
      subst hae
      constructor
      · intro hu
        simp [match_set_expr, hu]
      · intro hnu
        cases hv : get_variable config av2.var event with
        | undefined => exact absurd hv hnu
        | missing => simp [match_set_expr, hv]
        | defined v => cases v <;> simp [match_set_expr, hv]
    | il l => simp [set_subject] at hav
    | sl l => simp [set_subject] at hav
  | s sv =>
    cases right with
    | variableValue av2 =>
      have hae : av2 = av := by simpa [set_subject] using hav
      subst hae
      constructor
      · intro hu
        simp [match_set_expr, hu]
      · intro hnu
        cases hv : get_variable config av2.var event with
        | undefined => exact absurd hv hnu
        | missing => simp [match_set_expr, hv]
        | defined v => cases v <;> simp [match_set_expr, hv]
    | il l => simp [set_subject] at hav
    | sl l => simp [set_subject] at hav
  | variableValue av2 =>
    cases right with
    | variableValue av3 => simp [set_subject] at hav
    | il l =>
      have hae : av2 = av := by simpa [set_subject] using hav
      subst hae
      constructor
      · intro hu
        simp [match_set_expr, hu]
      · intro hnu
        cases hv : get_variable config av2.var event with
        | undefined => exact absurd hv hnu
        | missing => simp [match_set_expr, hv]
        | defined v => cases v <;> simp [match_set_expr, hv]
    | sl l =>
      have hae : av2 = av := by simpa [set_subject] using hav
      subst hae
      constructor
      · intro hu
        simp [match_set_expr, hu]
      · intro hnu
        cases hv : get_variable config av2.var event with
        | undefined => exact absurd hv hnu
        | missing => simp [match_set_expr, hv]
        | defined v => cases v <;> simp [match_set_expr, hv]

/-- C8 witness: with the variable bound, `NOT_IN` is the negation of
    `IN` (here `3 IN [1,2]` is false so `NOT_IN` is true); with it absent
    and allowed, both are false. -/
theorem set_not_in_complement_amended_witness :
    evalNM ⟨fun _ => 0, fun _ => true⟩ ⟨[⟨1, .i 3⟩]⟩ (fun _ _ _ _ _ => true)
        (.setNode 1 .notInSet (.variableValue ⟨[], 1⟩) (.il [1, 2])) =
      (evalNM ⟨fun _ => 0, fun _ => true⟩ ⟨[⟨1, .i 3⟩]⟩
        (fun _ _ _ _ _ => true)
        (.setNode 0 .inSet (.variableValue ⟨[], 1⟩) (.il [1, 2]))).map
          (fun b => ! b) ∧
    evalNM ⟨fun _ => 0, fun _ => true⟩ ⟨[]⟩ (fun _ _ _ _ _ => true)
        (.setNode 0 .inSet (.variableValue ⟨[], 1⟩) (.il [1, 2])) =
      some false := by
  refine ⟨(set_not_in_complement_amended ⟨fun _ => 0, fun _ => true⟩
      ⟨[⟨1, .i 3⟩]⟩ (fun _ _ _ _ _ => true) 0 1 (.variableValue ⟨[], 1⟩)
      (.il [1, 2]) ⟨[], 1⟩ (by decide)).2 (by decide), ?_⟩
  exact ((set_not_in_complement_amended ⟨fun _ => 0, fun _ => true⟩ ⟨[]⟩
      (fun _ _ _ _ _ => true) 0 1 (.variableValue ⟨[], 1⟩)
      (.il [1, 2]) ⟨[], 1⟩ (by decide)).1 (by decide)).1

/-! ## C1 — memoization -/

/-- Whether either bit of id `p` is set. -/
def memo_has (mo : Option Memoize) (p : Nat) : Bool :=
  match mo with
  | none => false
  | some m => decide (p ∈ m.pass ∨ p ∈ m.fail)

/-- Bit-set inclusion between table states (tables only ever grow). -/
def memo_sub : Option Memoize → Option Memoize → Prop
  | none, none => True
  | some m1, some m2 =>
    (∀ p ∈ m1.pass, p ∈ m2.pass) ∧ (∀ p ∈ m1.fail, p ∈ m2.fail)
  | _, _ => False

theorem memo_sub_refl (mo : Option Memoize) : memo_sub mo mo := by
  cases mo with
  | none => trivial
  | some m => exact ⟨fun p hp => hp, fun p hp => hp⟩

theorem memo_sub_trans {m1 m2 m3 : Option Memoize} (h1 : memo_sub m1 m2)
    (h2 : memo_sub m2 m3) : memo_sub m1 m3 := by
  cases m1 with
  | none =>
    cases m2 with
    | none => exact h2
    | some b => exact absurd h1 (by simp [memo_sub])
  | some a =>
    cases m2 with
    | none => exact absurd h1 (by simp [memo_sub])
    | some b =>
      cases m3 with
      | none => exact absurd h2 (by simp [memo_sub])
      | some c =>
        exact ⟨fun p hp => h2.1 p (h1.1 p hp), fun p hp => h2.2 p (h1.2 p hp)⟩

theorem memo_sub_some {m : Memoize} {m2 : Option Memoize}
    (h : memo_sub (some m) m2) : ∃ m', m2 = some m' := by
  cases m2 with
  | none => exact absurd h (by simp [memo_sub])
  | some m' => exact ⟨m', rfl⟩

theorem memo_sub_some2 {mo1 mo2 : Option Memoize} {m : Memoize}
    (h : memo_sub mo1 mo2) (hm : mo1 = some m) : ∃ m2, mo2 = some m2 :=
  memo_sub_some (hm ▸ h)

theorem memo_store_sub (mo : Option Memoize) (i : Nat) (b : Bool) :
    memo_sub mo (memo_store mo i b) := by
  cases mo with
  | none => trivial
  | some m =>
    cases b with
    | true =>
      refine ⟨fun p hp => ?_, fun p hp => hp⟩
      exact List.mem_cons_of_mem _ hp
    | false =>
      refine ⟨fun p hp => hp, fun p hp => ?_⟩
      exact List.mem_cons_of_mem _ hp

theorem memo_has_mono {m1 m2 : Option Memoize} (h : memo_sub m1 m2) (p : Nat)
    (hp : memo_has m1 p = true) : memo_has m2 p = true := by
  cases m1 with
  | none => simp [memo_has] at hp
  | some a =>
    obtain ⟨b, rfl⟩ := memo_sub_some h
    simp only [memo_has, decide_eq_true_eq] at hp ⊢
    rcases hp with hp | hp
    · exact Or.inl (h.1 p hp)
    · exact Or.inr (h.2 p hp)

theorem memo_store_has_self {m : Memoize} (i : Nat) (b : Bool) :
    memo_has (memo_store (some m) i b) i = true := by
  cases b <;> simp [memo_store, memo_has]

theorem memo_check_none_has {mo : Option Memoize} {i : Nat}
    (h : memo_check mo i = none) : memo_has mo i = false := by
  cases mo with
  | none => rfl
  | some m =>
    by_cases hp : i ∈ m.pass
    · simp [memo_check, hp] at h
    · by_cases hf : i ∈ m.fail
      · simp [memo_check, hp, hf] at h
      · simp [memo_has, hp, hf]

theorem memo_check_some_has {mo : Option Memoize} {i : Nat} {r : Bool}
    (h : memo_check mo i = some r) : memo_has mo i = true := by
  cases mo with
  | none => simp [memo_check] at h
  | some m =>
    by_cases hp : i ∈ m.pass
    · simp [memo_has, hp]
    · by_cases hf : i ∈ m.fail
      · simp [memo_has, hf]
      · simp [memo_check, hp, hf] at h

/-- Every tree is among its own subnodes. -/
theorem AstNode.mem_subnodes_self (n : AstNode) : n ∈ n.subnodes := by
  cases n <;> simp [AstNode.subnodes]

/-- Subnodes of a subnode are subnodes. -/
theorem AstNode.subnodes_sub {k n : AstNode} (hk : k ∈ n.subnodes) :
    ∀ j ∈ k.subnodes, j ∈ n.subnodes := by
  induction n with
  | boolNot i child ih =>
    intro j hj
    simp only [AstNode.subnodes, List.mem_cons] at hk ⊢
    rcases hk with rfl | hk
    · simp only [AstNode.subnodes, List.mem_cons] at hj
      exact hj
    · exact Or.inr (ih hk j hj)
  | boolAnd i lhs rhs ihl ihr =>
    intro j hj
    simp only [AstNode.subnodes, List.mem_cons, List.mem_append] at hk ⊢
    rcases hk with rfl | hk | hk
    · simp only [AstNode.subnodes, List.mem_cons, List.mem_append] at hj
      exact hj
    · exact Or.inr (Or.inl (ihl hk j hj))
    · exact Or.inr (Or.inr (ihr hk j hj))
  | boolOr i lhs rhs ihl ihr =>
    intro j hj
    simp only [AstNode.subnodes, List.mem_cons, List.mem_append] at hk ⊢
    rcases hk with rfl | hk | hk
    · simp only [AstNode.subnodes, List.mem_cons, List.mem_append] at hj
      exact hj
    · exact Or.inr (Or.inl (ihl hk j hj))
    · exact Or.inr (Or.inr (ihr hk j hj))
  | numericCompare i op attr value => intro j hj; simp_all [AstNode.subnodes]
  | equality i op attr value => intro j hj; simp_all [AstNode.subnodes]
  | boolVariable i attr => intro j hj; simp_all [AstNode.subnodes]
  | setNode i op left right => intro j hj; simp_all [AstNode.subnodes]
  | listNode i op attr value => intro j hj; simp_all [AstNode.subnodes]
  | specialFrequency i ftype attr ns value length =>
    intro j hj; simp_all [AstNode.subnodes]
  | specialSegment i op hasVariable attr segment_id seconds =>
    intro j hj; simp_all [AstNode.subnodes]
  | specialGeo i lat lon hasRadius radius =>
    intro j hj; simp_all [AstNode.subnodes]
  | specialString i op attr pattern => intro j hj; simp_all [AstNode.subnodes]

theorem AstNode.subIds_boolNot (i : Nat) (c : AstNode) :
    (AstNode.boolNot i c).subIds = i :: c.subIds := by
  simp [AstNode.subIds, AstNode.subnodes, AstNode.id]

theorem AstNode.subIds_boolAnd (i : Nat) (l r : AstNode) :
    (AstNode.boolAnd i l r).subIds = i :: (l.subIds ++ r.subIds) := by
  simp [AstNode.subIds, AstNode.subnodes, AstNode.id]

theorem AstNode.subIds_boolOr (i : Nat) (l r : AstNode) :
    (AstNode.boolOr i l r).subIds = i :: (l.subIds ++ r.subIds) := by
  simp [AstNode.subIds, AstNode.subnodes, AstNode.id]

theorem AstNode.properIds_boolNot {i : Nat} {c : AstNode}
    (h : (AstNode.boolNot i c).properIds = true) :
    i ∉ c.subIds ∧ c.properIds = true := by
  simpa [AstNode.properIds] using h

theorem AstNode.properIds_boolAnd {i : Nat} {l r : AstNode}
    (h : (AstNode.boolAnd i l r).properIds = true) :
    i ∉ l.subIds ∧ i ∉ r.subIds ∧ l.properIds = true ∧ r.properIds = true := by
  simpa [AstNode.properIds, and_assoc] using h

theorem AstNode.properIds_boolOr {i : Nat} {l r : AstNode}
    (h : (AstNode.boolOr i l r).properIds = true) :
    i ∉ l.subIds ∧ i ∉ r.subIds ∧ l.properIds = true ∧ r.properIds = true := by
  simpa [AstNode.properIds, and_assoc] using h

/-- The run-time invariants of one `match_node_inner` call: the table only
    grows; ids already in the table are not computed again; only ids of
    the tree are computed; with a table and proper ids, no id is computed
    twice; and a computed id has had its bit set unless the call
    aborted. -/
def Inv (n : AstNode) (mo : Option Memoize) (o : EvalOut) : Prop :=
  memo_sub mo o.memo ∧
  (∀ p, memo_has mo p = true → o.evald.count p = 0) ∧
  (∀ p, p ∈ o.evald → p ∈ n.subIds) ∧
  (∀ m : Memoize, mo = some m → n.properIds = true →
    ∀ p, o.evald.count p ≤ 1) ∧
  (∀ m : Memoize, mo = some m → ∀ p, 0 < o.evald.count p →
    memo_has o.memo p = true ∨ o.result = none)

/-- The invariants hold of a memo hit. -/
theorem inv_hit (n : AstNode) (mo : Option Memoize) (r : Bool) :
    Inv n mo ⟨some r, mo, []⟩ := by
  refine ⟨memo_sub_refl mo, ?_, ?_, ?_, ?_⟩ <;> simp

/-- The invariants hold of every `leaf_eval` call whose id is the tree's
    only id. -/
theorem inv_leaf (n : AstNode) (i : Nat) (res : Option Bool)
    (mo : Option Memoize) (hid : n.subIds = [i]) :
    Inv n mo (leaf_eval i res mo) := by
  cases hchk : memo_check mo i with
  | some r =>
    simpa only [leaf_eval, hchk] using inv_hit n mo r
  | none =>
    have hmiss : memo_has mo i = false := memo_check_none_has hchk
    cases res with
    | none =>
      simp only [leaf_eval, hchk, finish_node]
      refine ⟨memo_sub_refl mo, ?_, ?_, ?_, ?_⟩
      · intro p hp
        have hpi : p ≠ i := fun he => by rw [he, hmiss] at hp; cases hp
        simp [List.count_cons, Ne.symm hpi]
      · intro p hp
        simp only [List.mem_singleton] at hp
        simp [hid, hp]
      · intro m hm hpid p
        by_cases hpi : p = i
        · simp [List.count_cons, hpi]
        · simp [List.count_cons, Ne.symm hpi]
      · intro m hm p hp
        exact Or.inr rfl
    | some b =>
      simp only [leaf_eval, hchk, finish_node]
      refine ⟨memo_store_sub mo i b, ?_, ?_, ?_, ?_⟩
      · intro p hp
        have hpi : p ≠ i := fun he => by rw [he, hmiss] at hp; cases hp
        simp [List.count_cons, Ne.symm hpi]
      · intro p hp
        simp only [List.mem_singleton] at hp
        simp [hid, hp]
      · intro m hm hpid p
        by_cases hpi : p = i
        · simp [List.count_cons, hpi]
        · simp [List.count_cons, Ne.symm hpi]
      · intro m hm p hp
        subst hm
        have hpi : p = i := by
          by_contra hne
          simp [List.count_cons, Ne.symm hne] at hp
        subst hpi
        exact Or.inl (memo_store_has_self p b)

theorem count_cons_ne (p i : Nat) (l : List Nat) (h : p ≠ i) :
    (i :: l).count p = l.count p := by
  simp [List.count_cons, Ne.symm h]

theorem count_cons_self (i : Nat) (l : List Nat) :
    (i :: l).count i = l.count i + 1 := by
  simp [List.count_cons]

/-- The run-time invariants hold of every evaluation. -/
theorem eval_invariants (config : Config) (event : Event)
    (geoFn : Rat → Rat → Rat → Rat → Rat → Bool) (n : AstNode) :
    ∀ mo : Option Memoize,
      Inv n mo (match_node_inner config event geoFn n mo) := by
  induction n with
  | numericCompare i op attr value =>
    intro mo
    simp only [match_node_inner]
    exact inv_leaf _ _ _ mo
      (by simp [AstNode.subIds, AstNode.subnodes, AstNode.id])
  | equality i op attr value =>
    intro mo
    simp only [match_node_inner]
    exact inv_leaf _ _ _ mo
      (by simp [AstNode.subIds, AstNode.subnodes, AstNode.id])
  | boolVariable i attr =>
    intro mo
    simp only [match_node_inner]
    exact inv_leaf _ _ _ mo
      (by simp [AstNode.subIds, AstNode.subnodes, AstNode.id])
  | setNode i op left right =>
    intro mo
    simp only [match_node_inner]
    exact inv_leaf _ _ _ mo
      (by simp [AstNode.subIds, AstNode.subnodes, AstNode.id])
  | listNode i op attr value =>
    intro mo
    simp only [match_node_inner]
    exact inv_leaf _ _ _ mo
      (by simp [AstNode.subIds, AstNode.subnodes, AstNode.id])
  | specialFrequency i ftype attr ns value length =>
    intro mo
    simp only [match_node_inner]
    exact inv_leaf _ _ _ mo
      (by simp [AstNode.subIds, AstNode.subnodes, AstNode.id])
  | specialSegment i op hasVariable attr segment_id seconds =>
    intro mo
    simp only [match_node_inner]
    exact inv_leaf _ _ _ mo
      (by simp [AstNode.subIds, AstNode.subnodes, AstNode.id])
  | specialGeo i lat lon hasRadius radius =>
    intro mo
    simp only [match_node_inner]
    exact inv_leaf _ _ _ mo
      (by simp [AstNode.subIds, AstNode.subnodes, AstNode.id])
  | specialString i op attr pattern =>
    intro mo
    simp only [match_node_inner]
    exact inv_leaf _ _ _ mo
      (by simp [AstNode.subIds, AstNode.subnodes, AstNode.id])
  | boolNot i child ih =>
    intro mo
    cases hchk : memo_check mo i with
    | some r =>
      have ho : match_node_inner config event geoFn (.boolNot i child) mo =
          ⟨some r, mo, []⟩ := by
        simp only [match_node_inner, AstNode.id, hchk]
      rw [ho]
      exact inv_hit _ mo r
    | none =>
      have hmiss : memo_has mo i = false := memo_check_none_has hchk
      obtain ⟨c1, c2, c3, c4, c5⟩ := ih mo
      cases hr : (match_node_inner config event geoFn child mo).result with
      | none =>
        have ho : match_node_inner config event geoFn (.boolNot i child) mo =
            ⟨none, (match_node_inner config event geoFn child mo).memo,
              i :: (match_node_inner config event geoFn child mo).evald⟩ := by
          simp only [match_node_inner, AstNode.id, hchk, hr]
        rw [ho]
        refine ⟨c1, ?_, ?_, ?_, ?_⟩
        · intro p hp
          have hpi : p ≠ i := fun he => by rw [he, hmiss] at hp; cases hp
          rw [count_cons_ne p i _ hpi]
          exact c2 p hp
        · intro p hp
          rw [AstNode.subIds_boolNot]
          rcases List.mem_cons.mp hp with rfl | hp
          · exact List.mem_cons_self _ _
          · exact List.mem_cons_of_mem _ (c3 p hp)
        · intro m hm hpid p
          obtain ⟨hni, hcp⟩ := AstNode.properIds_boolNot hpid
          by_cases hpi : p = i
          · subst hpi
            have hz : (match_node_inner config event geoFn child mo).evald.count p
                = 0 := by
              rw [List.count_eq_zero]
              intro hmem
              exact hni (c3 p hmem)
            rw [count_cons_self, hz]
          · rw [count_cons_ne p i _ hpi]
            exact c4 m hm hcp p
        · intro m hm p hp
          exact Or.inr rfl
      | some b =>
        have ho : match_node_inner config event geoFn (.boolNot i child) mo =
            ⟨some (! b),
              memo_store (match_node_inner config event geoFn child mo).memo
                i (! b),
              i :: (match_node_inner config event geoFn child mo).evald⟩ := by
          simp only [match_node_inner, AstNode.id, hchk, hr, finish_node]
        rw [ho]
        refine ⟨memo_sub_trans c1 (memo_store_sub _ i (! b)), ?_, ?_, ?_, ?_⟩
        · intro p hp
          have hpi : p ≠ i := fun he => by rw [he, hmiss] at hp; cases hp
          rw [count_cons_ne p i _ hpi]
          exact c2 p hp
        · intro p hp
          rw [AstNode.subIds_boolNot]
          rcases List.mem_cons.mp hp with rfl | hp
          · exact List.mem_cons_self _ _
          · exact List.mem_cons_of_mem _ (c3 p hp)
        · intro m hm hpid p
          obtain ⟨hni, hcp⟩ := AstNode.properIds_boolNot hpid
          by_cases hpi : p = i
          · subst hpi
            have hz : (match_node_inner config event geoFn child mo).evald.count p
                = 0 := by
              rw [List.count_eq_zero]
              intro hmem
              exact hni (c3 p hmem)
            rw [count_cons_self, hz]
          · rw [count_cons_ne p i _ hpi]
            exact c4 m hm hcp p
        · intro m hm p hp
          subst hm
          obtain ⟨m1, hm1⟩ := memo_sub_some c1
          by_cases hpi : p = i
          · subst hpi
            rw [hm1]
            exact Or.inl (memo_store_has_self p (! b))
          · rw [count_cons_ne p i _ hpi] at hp
            rcases c5 m rfl p hp with hhas | hres
            · exact Or.inl (memo_has_mono (memo_store_sub _ i (! b)) p hhas)
            · rw [hres] at hr; cases hr
  | boolAnd i lhs rhs ihl ihr =>
    intro mo
    cases hchk : memo_check mo i with
    | some r =>
      have ho : match_node_inner config event geoFn (.boolAnd i lhs rhs) mo =
          ⟨some r, mo, []⟩ := by
        simp only [match_node_inner, AstNode.id, hchk]
      rw [ho]
      exact inv_hit _ mo r
    | none =>
      have hmiss : memo_has mo i = false := memo_check_none_has hchk
      obtain ⟨l1, l2, l3, l4, l5⟩ := ihl mo
      cases hr : (match_node_inner config event geoFn lhs mo).result with
      | none =>
        have ho : match_node_inner config event geoFn (.boolAnd i lhs rhs) mo =
            ⟨none, (match_node_inner config event geoFn lhs mo).memo,
              i :: (match_node_inner config event geoFn lhs mo).evald⟩ := by
          simp only [match_node_inner, AstNode.id, hchk, hr]
        rw [ho]
        refine ⟨l1, ?_, ?_, ?_, ?_⟩
        · intro p hp
          have hpi : p ≠ i := fun he => by rw [he, hmiss] at hp; cases hp
          rw [count_cons_ne p i _ hpi]
          exact l2 p hp
        · intro p hp
          rw [AstNode.subIds_boolAnd]
          rcases List.mem_cons.mp hp with rfl | hp
          · exact List.mem_cons_self _ _
          · exact List.mem_cons_of_mem _ (List.mem_append_left _ (l3 p hp))
        · intro m hm hpid p
          obtain ⟨hli, hri, hlp, hrp⟩ := AstNode.properIds_boolAnd hpid
          by_cases hpi : p = i
          · subst hpi
            have hz : (match_node_inner config event geoFn lhs mo).evald.count p
                = 0 := by
              rw [List.count_eq_zero]
              intro hmem
              exact hli (l3 p hmem)
            rw [count_cons_self, hz]
          · rw [count_cons_ne p i _ hpi]
            exact l4 m hm hlp p
        · intro m hm p hp
          exact Or.inr rfl
      | some b =>
        cases b with
        | false =>
          have ho : match_node_inner config event geoFn (.boolAnd i lhs rhs) mo
              = ⟨some false,
                  memo_store (match_node_inner config event geoFn lhs mo).memo
                    i false,
                  i :: (match_node_inner config event geoFn lhs mo).evald⟩ := by
            simp only [match_node_inner, AstNode.id, hchk, hr, finish_node]
          rw [ho]
          refine ⟨memo_sub_trans l1 (memo_store_sub _ i false), ?_, ?_, ?_, ?_⟩
          · intro p hp
            have hpi : p ≠ i := fun he => by rw [he, hmiss] at hp; cases hp
            rw [count_cons_ne p i _ hpi]
            exact l2 p hp
          · intro p hp
            rw [AstNode.subIds_boolAnd]
            rcases List.mem_cons.mp hp with rfl | hp
            · exact List.mem_cons_self _ _
            · exact List.mem_cons_of_mem _ (List.mem_append_left _ (l3 p hp))
          · intro m hm hpid p
            obtain ⟨hli, hri, hlp, hrp⟩ := AstNode.properIds_boolAnd hpid
            by_cases hpi : p = i
            · subst hpi
              have hz : (match_node_inner config event geoFn lhs mo).evald.count
                  p = 0 := by
                rw [List.count_eq_zero]
                intro hmem
                exact hli (l3 p hmem)
              rw [count_cons_self, hz]
            · rw [count_cons_ne p i _ hpi]
              exact l4 m hm hlp p
          · intro m hm p hp
            subst hm
            obtain ⟨m1, hm1⟩ := memo_sub_some l1
            by_cases hpi : p = i
            · subst hpi
              rw [hm1]
              exact Or.inl (memo_store_has_self p false)
            · rw [count_cons_ne p i _ hpi] at hp
              rcases l5 m rfl p hp with hhas | hres
              · exact Or.inl (memo_has_mono (memo_store_sub _ i false) p hhas)
              · rw [hres] at hr; cases hr
        | true =>
          obtain ⟨r1, r2, r3, r4, r5⟩ :=
            ihr (match_node_inner config event geoFn lhs mo).memo
          cases hrr : (match_node_inner config event geoFn rhs
              (match_node_inner config event geoFn lhs mo).memo).result with
          | none =>
            have ho : match_node_inner config event geoFn (.boolAnd i lhs rhs)
                mo = ⟨none,
                  (match_node_inner config event geoFn rhs
                    (match_node_inner config event geoFn lhs mo).memo).memo,
                  i :: ((match_node_inner config event geoFn lhs mo).evald ++
                    (match_node_inner config event geoFn rhs
                      (match_node_inner config event geoFn lhs mo).memo).evald)⟩
                := by
              simp only [match_node_inner, AstNode.id, hchk, hr, hrr,
                finish_node]
            rw [ho]
            refine ⟨memo_sub_trans l1 r1, ?_, ?_, ?_, ?_⟩
            · intro p hp
              have hpi : p ≠ i := fun he => by rw [he, hmiss] at hp; cases hp
              rw [count_cons_ne p i _ hpi, List.count_append]
              rw [l2 p hp, r2 p (memo_has_mono l1 p hp)]
            · intro p hp
              rw [AstNode.subIds_boolAnd]
              rcases List.mem_cons.mp hp with rfl | hp
              · exact List.mem_cons_self _ _
              · rcases List.mem_append.mp hp with hp | hp
                · exact List.mem_cons_of_mem _
                    (List.mem_append_left _ (l3 p hp))
                · exact List.mem_cons_of_mem _
                    (List.mem_append_right _ (r3 p hp))
            · intro m hm hpid p
              obtain ⟨hli, hri, hlp, hrp⟩ := AstNode.properIds_boolAnd hpid
              subst hm
              obtain ⟨m1, hm1⟩ := memo_sub_some l1
              by_cases hpi : p = i
              · subst hpi
                have hzl : (match_node_inner config event geoFn lhs
                    (some m)).evald.count p = 0 := by
                  rw [List.count_eq_zero]
                  intro hmem
                  exact hli (l3 p hmem)
                have hzr : (match_node_inner config event geoFn rhs
                    (match_node_inner config event geoFn lhs
                      (some m)).memo).evald.count p = 0 := by
                  rw [List.count_eq_zero]
                  intro hmem
                  exact hri (r3 p hmem)
                rw [count_cons_self, List.count_append, hzl, hzr]
              · rw [count_cons_ne p i _ hpi, List.count_append]
                have hcl := l4 m rfl hlp p
                have hcr := r4 m1 hm1 hrp p
                by_cases hz : (match_node_inner config event geoFn lhs
                    (some m)).evald.count p = 0
                · omega
                · have hpos : 0 < (match_node_inner config event geoFn lhs
                      (some m)).evald.count p := Nat.pos_of_ne_zero hz
                  rcases l5 m rfl p hpos with hhas | hres
                  · have : (match_node_inner config event geoFn rhs
                        (match_node_inner config event geoFn lhs
                          (some m)).memo).evald.count p = 0 := r2 p hhas
                    omega
                  · rw [hres] at hr; cases hr
            · intro m hm p hp
              exact Or.inr rfl
          | some b2 =>
            have ho : match_node_inner config event geoFn (.boolAnd i lhs rhs)
                mo = ⟨some b2,
                  memo_store (match_node_inner config event geoFn rhs
                    (match_node_inner config event geoFn lhs mo).memo).memo
                    i b2,
                  i :: ((match_node_inner config event geoFn lhs mo).evald ++
                    (match_node_inner config event geoFn rhs
                      (match_node_inner config event geoFn lhs mo).memo).evald)⟩
                := by
              simp only [match_node_inner, AstNode.id, hchk, hr, hrr,
                finish_node]
            rw [ho]
            refine ⟨memo_sub_trans (memo_sub_trans l1 r1)
              (memo_store_sub _ i b2), ?_, ?_, ?_, ?_⟩
            · intro p hp
              have hpi : p ≠ i := fun he => by rw [he, hmiss] at hp; cases hp
              rw [count_cons_ne p i _ hpi, List.count_append]
              rw [l2 p hp, r2 p (memo_has_mono l1 p hp)]
            · intro p hp
              rw [AstNode.subIds_boolAnd]
              rcases List.mem_cons.mp hp with rfl | hp
              · exact List.mem_cons_self _ _
              · rcases List.mem_append.mp hp with hp | hp
                · exact List.mem_cons_of_mem _
                    (List.mem_append_left _ (l3 p hp))
                · exact List.mem_cons_of_mem _
                    (List.mem_append_right _ (r3 p hp))
            · intro m hm hpid p
              obtain ⟨hli, hri, hlp, hrp⟩ := AstNode.properIds_boolAnd hpid
              subst hm
              obtain ⟨m1, hm1⟩ := memo_sub_some l1
              by_cases hpi : p = i
              · subst hpi
                have hzl : (match_node_inner config event geoFn lhs
                    (some m)).evald.count p = 0 := by
                  rw [List.count_eq_zero]
                  intro hmem
                  exact hli (l3 p hmem)
                have hzr : (match_node_inner config event geoFn rhs
                    (match_node_inner config event geoFn lhs
                      (some m)).memo).evald.count p = 0 := by
                  rw [List.count_eq_zero]
                  intro hmem
                  exact hri (r3 p hmem)
                rw [count_cons_self, List.count_append, hzl, hzr]
              · rw [count_cons_ne p i _ hpi, List.count_append]
                have hcl := l4 m rfl hlp p
                have hcr := r4 m1 hm1 hrp p
                by_cases hz : (match_node_inner config event geoFn lhs
                    (some m)).evald.count p = 0
                · omega
                · have hpos : 0 < (match_node_inner config event geoFn lhs
                      (some m)).evald.count p := Nat.pos_of_ne_zero hz
                  rcases l5 m rfl p hpos with hhas | hres
                  · have : (match_node_inner config event geoFn rhs
                        (match_node_inner config event geoFn lhs
                          (some m)).memo).evald.count p = 0 := r2 p hhas
                    omega
                  · rw [hres] at hr; cases hr
            · intro m hm p hp
              subst hm
              obtain ⟨m1, hm1⟩ := memo_sub_some l1
              obtain ⟨m2, hm2⟩ := memo_sub_some2 r1 hm1
              by_cases hpi : p = i
              · subst hpi
                rw [hm2]
                exact Or.inl (memo_store_has_self p b2)
              · rw [count_cons_ne p i _ hpi, List.count_append] at hp
                by_cases hz : 0 < (match_node_inner config event geoFn lhs
                    (some m)).evald.count p
                · rcases l5 m rfl p hz with hhas | hres
                  · exact Or.inl (memo_has_mono (memo_store_sub _ i b2) p
                      (memo_has_mono r1 p hhas))
                  · rw [hres] at hr; cases hr
                · have hposr : 0 < (match_node_inner config event geoFn rhs
                      (match_node_inner config event geoFn lhs
                        (some m)).memo).evald.count p := by omega
                  rcases r5 m1 hm1 p hposr with hhas | hres
                  · exact Or.inl (memo_has_mono (memo_store_sub _ i b2) p hhas)
                  · rw [hres] at hrr; cases hrr
  | boolOr i lhs rhs ihl ihr =>
    intro mo
    cases hchk : memo_check mo i with
    | some r =>
      have ho : match_node_inner config event geoFn (.boolOr i lhs rhs) mo =
          ⟨some r, mo, []⟩ := by
        simp only [match_node_inner, AstNode.id, hchk]
      rw [ho]
      exact inv_hit _ mo r
    | none =>
      have hmiss : memo_has mo i = false := memo_check_none_has hchk
      obtain ⟨l1, l2, l3, l4, l5⟩ := ihl mo
      cases hr : (match_node_inner config event geoFn lhs mo).result with
      | none =>
        have ho : match_node_inner config event geoFn (.boolOr i lhs rhs) mo =
            ⟨none, (match_node_inner config event geoFn lhs mo).memo,
              i :: (match_node_inner config event geoFn lhs mo).evald⟩ := by
          simp only [match_node_inner, AstNode.id, hchk, hr]
        rw [ho]
        refine ⟨l1, ?_, ?_, ?_, ?_⟩
        · intro p hp
          have hpi : p ≠ i := fun he => by rw [he, hmiss] at hp; cases hp
          rw [count_cons_ne p i _ hpi]
          exact l2 p hp
        · intro p hp
          rw [AstNode.subIds_boolOr]
          rcases List.mem_cons.mp hp with rfl | hp
          · exact List.mem_cons_self _ _
          · exact List.mem_cons_of_mem _ (List.mem_append_left _ (l3 p hp))
        · intro m hm hpid p
          obtain ⟨hli, hri, hlp, hrp⟩ := AstNode.properIds_boolOr hpid
          by_cases hpi : p = i
          · subst hpi
            have hz : (match_node_inner config event geoFn lhs mo).evald.count p
                = 0 := by
              rw [List.count_eq_zero]
              intro hmem
              exact hli (l3 p hmem)
            rw [count_cons_self, hz]
          · rw [count_cons_ne p i _ hpi]
            exact l4 m hm hlp p
        · intro m hm p hp
          exact Or.inr rfl
      | some b =>
        cases b with
        | true =>
          have ho : match_node_inner config event geoFn (.boolOr i lhs rhs) mo
              = ⟨some true,
                  memo_store (match_node_inner config event geoFn lhs mo).memo
                    i true,
                  i :: (match_node_inner config event geoFn lhs mo).evald⟩ := by
            simp only [match_node_inner, AstNode.id, hchk, hr, finish_node]
          rw [ho]
          refine ⟨memo_sub_trans l1 (memo_store_sub _ i true), ?_, ?_, ?_, ?_⟩
          · intro p hp
            have hpi : p ≠ i := fun he => by rw [he, hmiss] at hp; cases hp
            rw [count_cons_ne p i _ hpi]
            exact l2 p hp
          · intro p hp
            rw [AstNode.subIds_boolOr]
            rcases List.mem_cons.mp hp with rfl | hp
            · exact List.mem_cons_self _ _
            · exact List.mem_cons_of_mem _ (List.mem_append_left _ (l3 p hp))
          · intro m hm hpid p
            obtain ⟨hli, hri, hlp, hrp⟩ := AstNode.properIds_boolOr hpid
            by_cases hpi : p = i
            · subst hpi
              have hz : (match_node_inner config event geoFn lhs mo).evald.count
                  p = 0 := by
                rw [List.count_eq_zero]
                intro hmem
                exact hli (l3 p hmem)
              rw [count_cons_self, hz]
            · rw [count_cons_ne p i _ hpi]
              exact l4 m hm hlp p
          · intro m hm p hp
            subst hm
            obtain ⟨m1, hm1⟩ := memo_sub_some l1
            by_cases hpi : p = i
            · subst hpi
              rw [hm1]
              exact Or.inl (memo_store_has_self p true)
            · rw [count_cons_ne p i _ hpi] at hp
              rcases l5 m rfl p hp with hhas | hres
              · exact Or.inl (memo_has_mono (memo_store_sub _ i true) p hhas)
              · rw [hres] at hr; cases hr
        | false =>
          obtain ⟨r1, r2, r3, r4, r5⟩ :=
            ihr (match_node_inner config event geoFn lhs mo).memo
          cases hrr : (match_node_inner config event geoFn rhs
              (match_node_inner config event geoFn lhs mo).memo).result with
          | none =>
            have ho : match_node_inner config event geoFn (.boolOr i lhs rhs)
                mo = ⟨none,
                  (match_node_inner config event geoFn rhs
                    (match_node_inner config event geoFn lhs mo).memo).memo,
                  i :: ((match_node_inner config event geoFn lhs mo).evald ++
                    (match_node_inner config event geoFn rhs
                      (match_node_inner config event geoFn lhs mo).memo).evald)⟩
                := by
              simp only [match_node_inner, AstNode.id, hchk, hr, hrr,
                finish_node]
            rw [ho]
            refine ⟨memo_sub_trans l1 r1, ?_, ?_, ?_, ?_⟩
            · intro p hp
              have hpi : p ≠ i := fun he => by rw [he, hmiss] at hp; cases hp
              rw [count_cons_ne p i _ hpi, List.count_append]
              rw [l2 p hp, r2 p (memo_has_mono l1 p hp)]
            · intro p hp
              rw [AstNode.subIds_boolOr]
              rcases List.mem_cons.mp hp with rfl | hp
              · exact List.mem_cons_self _ _
              · rcases List.mem_append.mp hp with hp | hp
                · exact List.mem_cons_of_mem _
                    (List.mem_append_left _ (l3 p hp))
                · exact List.mem_cons_of_mem _
                    (List.mem_append_right _ (r3 p hp))
            · intro m hm hpid p
              obtain ⟨hli, hri, hlp, hrp⟩ := AstNode.properIds_boolOr hpid
              subst hm
              obtain ⟨m1, hm1⟩ := memo_sub_some l1
              by_cases hpi : p = i
              · subst hpi
                have hzl : (match_node_inner config event geoFn lhs
                    (some m)).evald.count p = 0 := by
                  rw [List.count_eq_zero]
                  intro hmem
                  exact hli (l3 p hmem)
                have hzr : (match_node_inner config event geoFn rhs
                    (match_node_inner config event geoFn lhs
                      (some m)).memo).evald.count p = 0 := by
                  rw [List.count_eq_zero]
                  intro hmem
                  exact hri (r3 p hmem)
                rw [count_cons_self, List.count_append, hzl, hzr]
              · rw [count_cons_ne p i _ hpi, List.count_append]
                have hcl := l4 m rfl hlp p
                have hcr := r4 m1 hm1 hrp p
                by_cases hz : (match_node_inner config event geoFn lhs
                    (some m)).evald.count p = 0
                · omega
                · have hpos : 0 < (match_node_inner config event geoFn lhs
                      (some m)).evald.count p := Nat.pos_of_ne_zero hz
                  rcases l5 m rfl p hpos with hhas | hres
                  · have : (match_node_inner config event geoFn rhs
                        (match_node_inner config event geoFn lhs
                          (some m)).memo).evald.count p = 0 := r2 p hhas
                    omega
                  · rw [hres] at hr; cases hr
            · intro m hm p hp
              exact Or.inr rfl
          | some b2 =>
            have ho : match_node_inner config event geoFn (.boolOr i lhs rhs)
                mo = ⟨some b2,
                  memo_store (match_node_inner config event geoFn rhs
                    (match_node_inner config event geoFn lhs mo).memo).memo
                    i b2,
                  i :: ((match_node_inner config event geoFn lhs mo).evald ++
                    (match_node_inner config event geoFn rhs
                      (match_node_inner config event geoFn lhs mo).memo).evald)⟩
                := by
              simp only [match_node_inner, AstNode.id, hchk, hr, hrr,
                finish_node]
            rw [ho]
            refine ⟨memo_sub_trans (memo_sub_trans l1 r1)
              (memo_store_sub _ i b2), ?_, ?_, ?_, ?_⟩
            · intro p hp
              have hpi : p ≠ i := fun he => by rw [he, hmiss] at hp; cases hp
              rw [count_cons_ne p i _ hpi, List.count_append]
              rw [l2 p hp, r2 p (memo_has_mono l1 p hp)]
            · intro p hp
              rw [AstNode.subIds_boolOr]
              rcases List.mem_cons.mp hp with rfl | hp
              · exact List.mem_cons_self _ _
              · rcases List.mem_append.mp hp with hp | hp
                · exact List.mem_cons_of_mem _
                    (List.mem_append_left _ (l3 p hp))
                · exact List.mem_cons_of_mem _
                    (List.mem_append_right _ (r3 p hp))
            · intro m hm hpid p
              obtain ⟨hli, hri, hlp, hrp⟩ := AstNode.properIds_boolOr hpid
              subst hm
              obtain ⟨m1, hm1⟩ := memo_sub_some l1
              by_cases hpi : p = i
              · subst hpi
                have hzl : (match_node_inner config event geoFn lhs
                    (some m)).evald.count p = 0 := by
                  rw [List.count_eq_zero]
                  intro hmem
                  exact hli (l3 p hmem)
                have hzr : (match_node_inner config event geoFn rhs
                    (match_node_inner config event geoFn lhs
                      (some m)).memo).evald.count p = 0 := by
                  rw [List.count_eq_zero]
                  intro hmem
                  exact hri (r3 p hmem)
                rw [count_cons_self, List.count_append, hzl, hzr]
              · rw [count_cons_ne p i _ hpi, List.count_append]
                have hcl := l4 m rfl hlp p
                have hcr := r4 m1 hm1 hrp p
                by_cases hz : (match_node_inner config event geoFn lhs
                    (some m)).evald.count p = 0
                · omega
                · have hpos : 0 < (match_node_inner config event geoFn lhs
                      (some m)).evald.count p := Nat.pos_of_ne_zero hz
                  rcases l5 m rfl p hpos with hhas | hres
                  · have : (match_node_inner config event geoFn rhs
                        (match_node_inner config event geoFn lhs
                          (some m)).memo).evald.count p = 0 := r2 p hhas
                    omega
                  · rw [hres] at hr; cases hr
            · intro m hm p hp
              subst hm
              obtain ⟨m1, hm1⟩ := memo_sub_some l1
              obtain ⟨m2, hm2⟩ := memo_sub_some2 r1 hm1
              by_cases hpi : p = i
              · subst hpi
                rw [hm2]
                exact Or.inl (memo_store_has_self p b2)
              · rw [count_cons_ne p i _ hpi, List.count_append] at hp
                by_cases hz : 0 < (match_node_inner config event geoFn lhs
                    (some m)).evald.count p
                · rcases l5 m rfl p hz with hhas | hres
                  · exact Or.inl (memo_has_mono (memo_store_sub _ i b2) p
                      (memo_has_mono r1 p hhas))
                  · rw [hres] at hr; cases hr
                · have hposr : 0 < (match_node_inner config event geoFn rhs
                      (match_node_inner config event geoFn lhs
                        (some m)).memo).evald.count p := by omega
                  rcases r5 m1 hm1 p hposr with hhas | hres
                  · exact Or.inl (memo_has_mono (memo_store_sub _ i b2) p hhas)
                  · rw [hres] at hrr; cases hrr
/-- A sequence of `match_node` calls over one table computes ids already
    in the table zero times, and — when every expression has proper ids —
    computes every id at most once in total. -/
theorem run_seq_invariants (config : Config) (event : Event)
    (geoFn : Rat → Rat → Rat → Rat → Rat → Bool) :
    ∀ (es : List AstNode) (m : Memoize),
      (∀ k ∈ es, k.properIds = true) →
      (∀ p, memo_has (some m) p = true →
        (run_seq config event geoFn es (some m)).2.count p = 0) ∧
      (∀ p, (run_seq config event geoFn es (some m)).2.count p ≤ 1) := by
  intro es
  induction es with
  | nil =>
    intro m h
    constructor <;> intro p <;> simp [run_seq]
  | cons n rest ih =>
    intro m hprop
    obtain ⟨i1, i2, i3, i4, i5⟩ := eval_invariants config event geoFn n (some m)
    cases hr : (match_node_inner config event geoFn n (some m)).result with
    | none =>
      have hrun : run_seq config event geoFn (n :: rest) (some m) =
          ((match_node_inner config event geoFn n (some m)).memo,
            (match_node_inner config event geoFn n (some m)).evald) := by
        simp only [run_seq, match_node, hr]
      rw [hrun]
      exact ⟨fun p hp => i2 p hp, fun p => i4 m rfl (hprop n (by simp)) p⟩
    | some b =>
      obtain ⟨m1, hm1⟩ := memo_sub_some i1
      have hrest := ih m1 (fun k hk => hprop k (by simp [hk]))
      have hrun : run_seq config event geoFn (n :: rest) (some m) =
          ((run_seq config event geoFn rest (some m1)).1,
            (match_node_inner config event geoFn n (some m)).evald ++
              (run_seq config event geoFn rest (some m1)).2) := by
        simp only [run_seq, match_node, hr, hm1]
      rw [hrun]
      constructor
      · intro p hp
        rw [List.count_append, i2 p hp]
        have hh : memo_has (some m1) p = true := hm1 ▸ memo_has_mono i1 p hp
        rw [hrest.1 p hh]
      · intro p
        rw [List.count_append]
        have h1 := i4 m rfl (hprop n (by simp)) p
        have h2 := hrest.2 p
        by_cases hz :
            0 < (match_node_inner config event geoFn n (some m)).evald.count p
        · rcases i5 m rfl p hz with hhas | hres
          · have hh : memo_has (some m1) p = true := hm1 ▸ hhas
            have := hrest.1 p hh
            omega
          · rw [hres] at hr; cases hr
        · omega

/-- A table is sound for a tree when every set bit records the unmemoized
    outcome of every subnode carrying that id. -/
def SoundMemo (config : Config) (event : Event)
    (geoFn : Rat → Rat → Rat → Rat → Rat → Bool) (root : AstNode)
    (m : Memoize) : Prop :=
  ∀ k ∈ root.subnodes,
    (k.id ∈ m.pass → evalNM config event geoFn k = some true) ∧
    (k.id ∈ m.fail → evalNM config event geoFn k = some false)

theorem memo_check_spec {m : Memoize} {i : Nat} {r : Bool}
    (h : memo_check (some m) i = some r) :
    (r = true ∧ i ∈ m.pass) ∨ (r = false ∧ i ∈ m.fail) := by
  by_cases hp : i ∈ m.pass
  · have ht : memo_check (some m) i = some true := by simp [memo_check, hp]
    rw [ht] at h
    exact Or.inl ⟨(Option.some.inj h).symm, hp⟩
  · by_cases hf : i ∈ m.fail
    · have ht : memo_check (some m) i = some false := by
        simp [memo_check, hp, hf]
      rw [ht] at h
      exact Or.inr ⟨(Option.some.inj h).symm, hf⟩
    · simp [memo_check, hp, hf] at h

/-- Storing a node's fresh outcome keeps the table sound, by id
    consistency. -/
theorem sound_memo_store (config : Config) (event : Event)
    (geoFn : Rat → Rat → Rat → Rat → Rat → Bool) {root n : AstNode}
    (hcons : IdConsistent config event geoFn root)
    (hmem : n ∈ root.subnodes) {m : Memoize}
    (hs : SoundMemo config event geoFn root m) {b : Bool}
    (hb : evalNM config event geoFn n = some b) :
    SoundMemo config event geoFn root
      (if b then { m with pass := n.id :: m.pass }
       else { m with fail := n.id :: m.fail }) := by
  intro k hk
  cases b with
  | true =>
    refine ⟨fun hp => ?_, fun hf => (hs k hk).2 hf⟩
    rcases List.mem_cons.mp hp with he | hp
    · rw [hcons k hk n hmem he]
      exact hb
    · exact (hs k hk).1 hp
  | false =>
    refine ⟨fun hp => (hs k hk).1 hp, fun hf => ?_⟩
    rcases List.mem_cons.mp hf with he | hf
    · rw [hcons k hk n hmem he]
      exact hb
    · exact (hs k hk).2 hf

/-- The generic leaf shape agrees with unmemoized evaluation on a sound
    table and keeps the table sound. -/
theorem leaf_eval_agrees (config : Config) (event : Event)
    (geoFn : Rat → Rat → Rat → Rat → Rat → Bool) {root n : AstNode}
    (hcons : IdConsistent config event geoFn root)
    (hmem : n ∈ root.subnodes) (m : Memoize)
    (hs : SoundMemo config event geoFn root m) (res : Option Bool)
    (hres : evalNM config event geoFn n = res) :
    (leaf_eval n.id res (some m)).result = res ∧
    ∃ m', (leaf_eval n.id res (some m)).memo = some m' ∧
      SoundMemo config event geoFn root m' := by
  cases hchk : memo_check (some m) n.id with
  | some r =>
    have hsr : evalNM config event geoFn n = some r := by
      rcases memo_check_spec hchk with ⟨rfl, hp⟩ | ⟨rfl, hf⟩
      · exact (hs n hmem).1 hp
      · exact (hs n hmem).2 hf
    rw [hres] at hsr
    simp only [leaf_eval, hchk]
    exact ⟨hsr.symm, m, rfl, hs⟩
  | none =>
    cases res with
    | none =>
      refine ⟨?_, m, ?_, hs⟩ <;> simp [leaf_eval, hchk, finish_node]
    | some b =>
      refine ⟨?_,
        (if b then { m with pass := n.id :: m.pass }
         else { m with fail := n.id :: m.fail }), ?_,
        sound_memo_store config event geoFn hcons hmem hs hres⟩ <;>
      simp [leaf_eval, hchk, finish_node, memo_store]

/-- With id consistency, evaluation over any sound table returns the
    unmemoized outcome and leaves the table sound. -/
theorem memo_eval_agrees (config : Config) (event : Event)
    (geoFn : Rat → Rat → Rat → Rat → Rat → Bool) (root : AstNode)
    (hcons : IdConsistent config event geoFn root) :
    ∀ n : AstNode, n ∈ root.subnodes → ∀ m : Memoize,
      SoundMemo config event geoFn root m →
      (match_node_inner config event geoFn n (some m)).result =
        evalNM config event geoFn n ∧
      ∃ m', (match_node_inner config event geoFn n (some m)).memo = some m' ∧
        SoundMemo config event geoFn root m' := by
  intro n
  induction n with
  | numericCompare i op attr value =>
    intro hmem m hs
    have h := leaf_eval_agrees config event geoFn hcons hmem m hs _
      (evalNM_numericCompare config event geoFn i op attr value)
    simp only [match_node_inner]
    exact ⟨h.1.trans
      (evalNM_numericCompare config event geoFn i op attr value).symm, h.2⟩
  | equality i op attr value =>
    intro hmem m hs
    have h := leaf_eval_agrees config event geoFn hcons hmem m hs _
      (evalNM_equality config event geoFn i op attr value)
    simp only [match_node_inner]
    exact ⟨h.1.trans
      (evalNM_equality config event geoFn i op attr value).symm, h.2⟩
  | boolVariable i attr =>
    intro hmem m hs
    have h := leaf_eval_agrees config event geoFn hcons hmem m hs _
      (evalNM_boolVariable config event geoFn i attr)
    simp only [match_node_inner]
    exact ⟨h.1.trans (evalNM_boolVariable config event geoFn i attr).symm, h.2⟩
  | setNode i op left right =>
    intro hmem m hs
    have h := leaf_eval_agrees config event geoFn hcons hmem m hs _
      (evalNM_setNode config event geoFn i op left right)
    simp only [match_node_inner]
    exact ⟨h.1.trans
      (evalNM_setNode config event geoFn i op left right).symm, h.2⟩
  | listNode i op attr value =>
    intro hmem m hs
    have h := leaf_eval_agrees config event geoFn hcons hmem m hs _
      (evalNM_listNode config event geoFn i op attr value)
    simp only [match_node_inner]
    exact ⟨h.1.trans
      (evalNM_listNode config event geoFn i op attr value).symm, h.2⟩
  | specialFrequency i ftype attr ns value length =>
    intro hmem m hs
    have h := leaf_eval_agrees config event geoFn hcons hmem m hs _
      (evalNM_specialFrequency config event geoFn i ftype attr ns value length)
    simp only [match_node_inner]
    exact ⟨h.1.trans (evalNM_specialFrequency config event geoFn i ftype attr
      ns value length).symm, h.2⟩
  | specialSegment i op hasVariable attr segment_id seconds =>
    intro hmem m hs
    have h := leaf_eval_agrees config event geoFn hcons hmem m hs _
      (evalNM_specialSegment config event geoFn i op hasVariable attr
        segment_id seconds)
    simp only [match_node_inner]
    exact ⟨h.1.trans (evalNM_specialSegment config event geoFn i op
      hasVariable attr segment_id seconds).symm, h.2⟩
  | specialGeo i lat lon hasRadius radius =>
    intro hmem m hs
    have h := leaf_eval_agrees config event geoFn hcons hmem m hs _
      (evalNM_specialGeo config event geoFn i lat lon hasRadius radius)
    simp only [match_node_inner]
    exact ⟨h.1.trans
      (evalNM_specialGeo config event geoFn i lat lon hasRadius radius).symm,
      h.2⟩
  | specialString i op attr pattern =>
    intro hmem m hs
    have h := leaf_eval_agrees config event geoFn hcons hmem m hs _
      (evalNM_specialString config event geoFn i op attr pattern)
    simp only [match_node_inner]
    exact ⟨h.1.trans
      (evalNM_specialString config event geoFn i op attr pattern).symm, h.2⟩
  | boolNot i child ih =>
    intro hmem m hs
    have hcmem : child ∈ root.subnodes := by
      refine AstNode.subnodes_sub hmem child ?_
      simp only [AstNode.subnodes, List.mem_cons]
      exact Or.inr (AstNode.mem_subnodes_self child)
    cases hchk : memo_check (some m) i with
    | some r =>
      have hsr : evalNM config event geoFn (.boolNot i child) = some r := by
        rcases memo_check_spec hchk with ⟨rfl, hp⟩ | ⟨rfl, hf⟩
        · exact (hs _ hmem).1 hp
        · exact (hs _ hmem).2 hf
      have ho : match_node_inner config event geoFn (.boolNot i child)
          (some m) = ⟨some r, some m, []⟩ := by
        simp only [match_node_inner, AstNode.id, hchk]
      rw [ho]
      exact ⟨hsr.symm, m, rfl, hs⟩
    | none =>
      obtain ⟨hres, m1, hm1, hs1⟩ := ih hcmem m hs
      cases hr : (match_node_inner config event geoFn child (some m)).result
        with
      | none =>
        have ho : match_node_inner config event geoFn (.boolNot i child)
            (some m) = ⟨none,
              (match_node_inner config event geoFn child (some m)).memo,
              i :: (match_node_inner config event geoFn child
                (some m)).evald⟩ := by
          simp only [match_node_inner, AstNode.id, hchk, hr]
        rw [ho]
        have hce : evalNM config event geoFn child = none := by
          rw [← hres, hr]
        constructor
        · rw [evalNM_boolNot, hce]
          rfl
        · exact ⟨m1, hm1, hs1⟩
      | some b =>
        have hce : evalNM config event geoFn child = some b := by
          rw [← hres, hr]
        have hnb : evalNM config event geoFn (.boolNot i child) =
            some (! b) := by
          rw [evalNM_boolNot, hce]
          rfl
        have ho : match_node_inner config event geoFn (.boolNot i child)
            (some m) = ⟨some (! b),
              memo_store (match_node_inner config event geoFn child
                (some m)).memo i (! b),
              i :: (match_node_inner config event geoFn child
                (some m)).evald⟩ := by
          simp only [match_node_inner, AstNode.id, hchk, hr, finish_node]
        rw [ho]
        refine ⟨hnb.symm, ?_⟩
        rw [hm1]
        exact ⟨_, rfl, sound_memo_store config event geoFn hcons hmem hs1 hnb⟩
  | boolAnd i lhs rhs ihl ihr =>
    intro hmem m hs
    have hlmem : lhs ∈ root.subnodes := by
      refine AstNode.subnodes_sub hmem lhs ?_
      simp only [AstNode.subnodes, List.mem_cons, List.mem_append]
      exact Or.inr (Or.inl (AstNode.mem_subnodes_self lhs))
    have hrmem : rhs ∈ root.subnodes := by
      refine AstNode.subnodes_sub hmem rhs ?_
      simp only [AstNode.subnodes, List.mem_cons, List.mem_append]
      exact Or.inr (Or.inr (AstNode.mem_subnodes_self rhs))
    cases hchk : memo_check (some m) i with
    | some r =>
      have hsr : evalNM config event geoFn (.boolAnd i lhs rhs) = some r := by
        rcases memo_check_spec hchk with ⟨rfl, hp⟩ | ⟨rfl, hf⟩
        · exact (hs _ hmem).1 hp
        · exact (hs _ hmem).2 hf
      have ho : match_node_inner config event geoFn (.boolAnd i lhs rhs)
          (some m) = ⟨some r, some m, []⟩ := by
        simp only [match_node_inner, AstNode.id, hchk]
      rw [ho]
      exact ⟨hsr.symm, m, rfl, hs⟩
    | none =>
      obtain ⟨lres, m1, hm1, hs1⟩ := ihl hlmem m hs
      cases hr : (match_node_inner config event geoFn lhs (some m)).result
        with
      | none =>
        have hle : evalNM config event geoFn lhs = none := by rw [← lres, hr]
        have ho : match_node_inner config event geoFn (.boolAnd i lhs rhs)
            (some m) = ⟨none,
              (match_node_inner config event geoFn lhs (some m)).memo,
              i :: (match_node_inner config event geoFn lhs (some m)).evald⟩
            := by
          simp only [match_node_inner, AstNode.id, hchk, hr]
        rw [ho]
        constructor
        · rw [evalNM_boolAnd, hle]
        · exact ⟨m1, hm1, hs1⟩
      | some b =>
        cases b with
        | false =>
          have hle : evalNM config event geoFn lhs = some false := by
            rw [← lres, hr]
          have hand : evalNM config event geoFn (.boolAnd i lhs rhs) =
              some false := by
            rw [evalNM_boolAnd, hle]
          have ho : match_node_inner config event geoFn (.boolAnd i lhs rhs)
              (some m) = ⟨some false,
                memo_store (match_node_inner config event geoFn lhs
                  (some m)).memo i false,
                i :: (match_node_inner config event geoFn lhs (some m)).evald⟩
              := by
            simp only [match_node_inner, AstNode.id, hchk, hr, finish_node]
          rw [ho]
          refine ⟨hand.symm, ?_⟩
          rw [hm1]
          exact ⟨_, rfl,
            sound_memo_store config event geoFn hcons hmem hs1 hand⟩
        | true =>
          have hle : evalNM config event geoFn lhs = some true := by
            rw [← lres, hr]
          have hand : evalNM config event geoFn (.boolAnd i lhs rhs) =
              evalNM config event geoFn rhs := by
            rw [evalNM_boolAnd, hle]
          obtain ⟨rres, m2, hm2, hs2⟩ := ihr hrmem m1 hs1
          cases hrr : (match_node_inner config event geoFn rhs
              (some m1)).result with
          | none =>
            have hre : evalNM config event geoFn rhs = none := by
              rw [← rres, hrr]
            have ho : match_node_inner config event geoFn
                (.boolAnd i lhs rhs) (some m) = ⟨none,
                  (match_node_inner config event geoFn rhs (some m1)).memo,
                  i :: ((match_node_inner config event geoFn lhs
                    (some m)).evald ++
                    (match_node_inner config event geoFn rhs
                      (some m1)).evald)⟩ := by
              simp only [match_node_inner, AstNode.id, hchk, hr, hm1, hrr,
                finish_node]
            rw [ho]
            constructor
            · rw [hand, hre]
            · exact ⟨m2, hm2, hs2⟩
          | some b2 =>
            have hre : evalNM config event geoFn rhs = some b2 := by
              rw [← rres, hrr]
            have hand2 : evalNM config event geoFn (.boolAnd i lhs rhs) =
                some b2 := hand.trans hre
            have ho : match_node_inner config event geoFn
                (.boolAnd i lhs rhs) (some m) = ⟨some b2,
                  memo_store (match_node_inner config event geoFn rhs
                    (some m1)).memo i b2,
                  i :: ((match_node_inner config event geoFn lhs
                    (some m)).evald ++
                    (match_node_inner config event geoFn rhs
                      (some m1)).evald)⟩ := by
              simp only [match_node_inner, AstNode.id, hchk, hr, hm1, hrr,
                finish_node]
            rw [ho]
            refine ⟨hand2.symm, ?_⟩
            rw [hm2]
            exact ⟨_, rfl,
              sound_memo_store config event geoFn hcons hmem hs2 hand2⟩

  | boolOr i lhs rhs ihl ihr =>
    intro hmem m hs
    have hlmem : lhs ∈ root.subnodes := by
      refine AstNode.subnodes_sub hmem lhs ?_
      simp only [AstNode.subnodes, List.mem_cons, List.mem_append]
      exact Or.inr (Or.inl (AstNode.mem_subnodes_self lhs))
    have hrmem : rhs ∈ root.subnodes := by
      refine AstNode.subnodes_sub hmem rhs ?_
      simp only [AstNode.subnodes, List.mem_cons, List.mem_append]
      exact Or.inr (Or.inr (AstNode.mem_subnodes_self rhs))
    cases hchk : memo_check (some m) i with
    | some r =>
      have hsr : evalNM config event geoFn (.boolOr i lhs rhs) = some r := by
        rcases memo_check_spec hchk with ⟨rfl, hp⟩ | ⟨rfl, hf⟩
        · exact (hs _ hmem).1 hp
        · exact (hs _ hmem).2 hf
      have ho : match_node_inner config event geoFn (.boolOr i lhs rhs)
          (some m) = ⟨some r, some m, []⟩ := by
        simp only [match_node_inner, AstNode.id, hchk]
      rw [ho]
      exact ⟨hsr.symm, m, rfl, hs⟩
    | none =>
      obtain ⟨lres, m1, hm1, hs1⟩ := ihl hlmem m hs
      cases hr : (match_node_inner config event geoFn lhs (some m)).result
        with
      | none =>
        have hle : evalNM config event geoFn lhs = none := by rw [← lres, hr]
        have ho : match_node_inner config event geoFn (.boolOr i lhs rhs)
            (some m) = ⟨none,
              (match_node_inner config event geoFn lhs (some m)).memo,
              i :: (match_node_inner config event geoFn lhs (some m)).evald⟩
            := by
          simp only [match_node_inner, AstNode.id, hchk, hr]
        rw [ho]
        constructor
        · rw [evalNM_boolOr, hle]
        · exact ⟨m1, hm1, hs1⟩
      | some b =>
        cases b with
        | true =>
          have hle : evalNM config event geoFn lhs = some true := by
            rw [← lres, hr]
          have hand : evalNM config event geoFn (.boolOr i lhs rhs) =
              some true := by
            rw [evalNM_boolOr, hle]
          have ho : match_node_inner config event geoFn (.boolOr i lhs rhs)
              (some m) = ⟨some true,
                memo_store (match_node_inner config event geoFn lhs
                  (some m)).memo i true,
                i :: (match_node_inner config event geoFn lhs (some m)).evald⟩
              := by
            simp only [match_node_inner, AstNode.id, hchk, hr, finish_node]
          rw [ho]
          refine ⟨hand.symm, ?_⟩
          rw [hm1]
          exact ⟨_, rfl,
            sound_memo_store config event geoFn hcons hmem hs1 hand⟩
        | false =>
          have hle : evalNM config event geoFn lhs = some false := by
            rw [← lres, hr]
          have hand : evalNM config event geoFn (.boolOr i lhs rhs) =
              evalNM config event geoFn rhs := by
            rw [evalNM_boolOr, hle]
          obtain ⟨rres, m2, hm2, hs2⟩ := ihr hrmem m1 hs1
          cases hrr : (match_node_inner config event geoFn rhs
              (some m1)).result with
          | none =>
            have hre : evalNM config event geoFn rhs = none := by
              rw [← rres, hrr]
            have ho : match_node_inner config event geoFn
                (.boolOr i lhs rhs) (some m) = ⟨none,
                  (match_node_inner config event geoFn rhs (some m1)).memo,
                  i :: ((match_node_inner config event geoFn lhs
                    (some m)).evald ++
                    (match_node_inner config event geoFn rhs
                      (some m1)).evald)⟩ := by
              simp only [match_node_inner, AstNode.id, hchk, hr, hm1, hrr,
                finish_node]
            rw [ho]
            constructor
            · rw [hand, hre]
            · exact ⟨m2, hm2, hs2⟩
          | some b2 =>
            have hre : evalNM config event geoFn rhs = some b2 := by
              rw [← rres, hrr]
            have hand2 : evalNM config event geoFn (.boolOr i lhs rhs) =
                some b2 := hand.trans hre
            have ho : match_node_inner config event geoFn
                (.boolOr i lhs rhs) (some m) = ⟨some b2,
                  memo_store (match_node_inner config event geoFn rhs
                    (some m1)).memo i b2,
                  i :: ((match_node_inner config event geoFn lhs
                    (some m)).evald ++
                    (match_node_inner config event geoFn rhs
                      (some m1)).evald)⟩ := by
              simp only [match_node_inner, AstNode.id, hchk, hr, hm1, hrr,
                finish_node]
            rw [ho]
            refine ⟨hand2.symm, ?_⟩
            rw [hm2]
            exact ⟨_, rfl,
              sound_memo_store config event geoFn hcons hmem hs2 hand2⟩

/-- C1: memoization soundness.  (a) For every expression whose ids are
    consistent (subnodes sharing an id have equal unmemoized outcomes —
    the invariant the predicate interner establishes by giving one id to
    one predicate), `match_node` with a fresh table returns the same
    boolean as with no table.  (b) Across any sequence of `match_node`
    calls sharing one table over the same event, each predicate id is
    computed at most once: ids whose pass or fail bit is already set are
    never computed, and in total no id is computed twice (for expressions
    whose nodes do not share an id with their own strict descendants, as
    structural hash-consing guarantees). -/
theorem match_memoization_sound (config : Config) (event : Event)
    (geoFn : Rat → Rat → Rat → Rat → Rat → Bool) (root : AstNode)
    (es : List AstNode) (m0 : Memoize)
    (hcons : IdConsistent config event geoFn root)
    (hprop : ∀ k ∈ es, k.properIds = true) :
    (match_node config event geoFn root (some memoize_make)).result =
      evalNM config event geoFn root ∧
    (∀ p, memo_has (some m0) p = true →
      (run_seq config event geoFn es (some m0)).2.count p = 0) ∧
    (∀ p, (run_seq config event geoFn es (some m0)).2.count p ≤ 1) := by
  refine ⟨?_, (run_seq_invariants config event geoFn es m0 hprop).1,
    (run_seq_invariants config event geoFn es m0 hprop).2⟩
  have hs : SoundMemo config event geoFn root memoize_make := by
    intro k hk
    constructor <;> intro h <;> simp [memoize_make] at h
  exact (memo_eval_agrees config event geoFn root hcons root
    (AstNode.mem_subnodes_self root) memoize_make hs).1

/-- C1 witness: `AND` of two structurally equal leaves sharing predicate
    id 0; a fresh-table evaluation returns the unmemoized `some true`, and
    running the expression twice over one shared table computes id 0 at
    most once. -/
theorem match_memoization_sound_witness :
    (match_node ⟨fun _ => 0, fun _ => true⟩ ⟨[⟨1, .i 25⟩]⟩
        (fun _ _ _ _ _ => true)
        (.boolAnd 1 (.equality 0 .eq ⟨[], 1⟩ (.i 25))
          (.equality 0 .eq ⟨[], 1⟩ (.i 25)))
        (some memoize_make)).result = some true ∧
    (run_seq ⟨fun _ => 0, fun _ => true⟩ ⟨[⟨1, .i 25⟩]⟩
        (fun _ _ _ _ _ => true)
        [.boolAnd 1 (.equality 0 .eq ⟨[], 1⟩ (.i 25))
            (.equality 0 .eq ⟨[], 1⟩ (.i 25)),
          .boolAnd 1 (.equality 0 .eq ⟨[], 1⟩ (.i 25))
            (.equality 0 .eq ⟨[], 1⟩ (.i 25))]
        (some memoize_make)).2.count 0 ≤ 1 := by
  have h := match_memoization_sound ⟨fun _ => 0, fun _ => true⟩
    ⟨[⟨1, .i 25⟩]⟩ (fun _ _ _ _ _ => true)
    (.boolAnd 1 (.equality 0 .eq ⟨[], 1⟩ (.i 25))
      (.equality 0 .eq ⟨[], 1⟩ (.i 25)))
    [.boolAnd 1 (.equality 0 .eq ⟨[], 1⟩ (.i 25))
        (.equality 0 .eq ⟨[], 1⟩ (.i 25)),
      .boolAnd 1 (.equality 0 .eq ⟨[], 1⟩ (.i 25))
        (.equality 0 .eq ⟨[], 1⟩ (.i 25))]
    memoize_make (by unfold IdConsistent; decide) (by decide)
  exact ⟨h.1.trans (by decide), h.2.2 0⟩

/-! ## C4 — structural equality (`eq_expr`) -/

/-- `eq_numeric_compare_value` from `src/ast.c`. -/
def eq_numeric_compare_value : NumCompareValue → NumCompareValue → Bool
  | .i x, .i y => decide (x = y)
  | .f x, .f y => feq x y
  | _, _ => false

/-- `eq_equality_value` from `src/ast.c`. -/
def eq_equality_value : EqualityValue → EqualityValue → Bool
  | .i x, .i y => decide (x = y)
  | .f x, .f y => feq x y
  | .s x, .s y => decide (x.var = y.var) && decide (x.str = y.str)
  | _, _ => false

/-- `eq_set_left_value` from `src/ast.c`. -/
def eq_set_left_value : SetLeftValue → SetLeftValue → Bool
  | .i x, .i y => decide (x = y)
  | .s x, .s y => decide (x.var = y.var) && decide (x.str = y.str)
  | .variableValue x, .variableValue y => decide (x.var = y.var)
  | _, _ => false

/-- `eq_integer_list` from `src/ast.c`: equal counts, then an indexed
    element walk. -/
def eq_integer_list (a b : List Int) : Bool :=
  decide (a.length = b.length) && (a.zip b).all (fun p => decide (p.1 = p.2))

/-- `eq_string_list` from `src/ast.c`: equal counts, then an indexed walk
    returning false only where the elements' attribute vars are equal and
    their string ids differ (a pair with different vars does not fail the
    comparison). -/
def eq_string_list (a b : List StringValue) : Bool :=
  decide (a.length = b.length) &&
    (a.zip b).all
      (fun p => ! (decide (p.1.var = p.2.var) && decide (p.1.str ≠ p.2.str)))

/-- `eq_set_right_value` from `src/ast.c`. -/
def eq_set_right_value : SetRightValue → SetRightValue → Bool
  | .il a, .il b => eq_integer_list a b
  | .sl a, .sl b => eq_string_list a b
  | .variableValue x, .variableValue y => decide (x.var = y.var)
  | _, _ => false

/-- `eq_list_value` from `src/ast.c`. -/
def eq_list_value : ListValue → ListValue → Bool
  | .il a, .il b => eq_integer_list a b
  | .sl a, .sl b => eq_string_list a b
  | _, _ => false

/-- `eq_geo_value` from `src/ast.c`. -/
def eq_geo_value : GeoValue → GeoValue → Bool
  | .i x, .i y => decide (x = y)
  | .f x, .f y => feq x y
  | _, _ => false

/-- `eq_expr` from `src/ast.c` (with `eq_bool_expr`, `eq_set_expr`,
    `eq_list_expr`, `eq_special_expr` inlined at their single call
    sites). -/
def eq_expr : AstNode → AstNode → Bool
  | .numericCompare _ op a v, .numericCompare _ op2 a2 v2 =>
    decide (a.var = a2.var) && decide (op = op2) &&
      eq_numeric_compare_value v v2
  | .equality _ op a v, .equality _ op2 a2 v2 =>
    decide (a.var = a2.var) && decide (op = op2) && eq_equality_value v v2
  | .boolVariable _ a, .boolVariable _ a2 => decide (a.var = a2.var)
  | .boolNot _ c, .boolNot _ c2 => eq_expr c c2
  | .boolAnd _ l r, .boolAnd _ l2 r2 => eq_expr l l2 && eq_expr r r2
  | .boolOr _ l r, .boolOr _ l2 r2 => eq_expr l l2 && eq_expr r r2
  | .setNode _ op l r, .setNode _ op2 l2 r2 =>
    decide (op = op2) && (eq_set_left_value l l2 && eq_set_right_value r r2)
  | .listNode _ op a v, .listNode _ op2 a2 v2 =>
    decide (op = op2) && (decide (a.var = a2.var) && eq_list_value v v2)
  | .specialFrequency _ t a ns v len, .specialFrequency _ t2 a2 ns2 v2 len2 =>
    decide (a.var = a2.var) && decide (len = len2) &&
      decide (ns.var = ns2.var) && decide (ns.str = ns2.str) &&
      decide (t = t2) && decide (v = v2)
  | .specialSegment _ op hv a sid sec, .specialSegment _ op2 hv2 a2 sid2 sec2 =>
    decide (a.var = a2.var) && decide (hv = hv2) && decide (op = op2) &&
      decide (sec = sec2) && decide (sid = sid2)
  | .specialGeo _ lat lon hr rad, .specialGeo _ lat2 lon2 hr2 rad2 =>
    decide (hr = hr2) && eq_geo_value lat lat2 && eq_geo_value lon lon2 &&
      eq_geo_value rad rad2
  | .specialString _ op a pat, .specialString _ op2 a2 pat2 =>
    decide (a.var = a2.var) && decide (op = op2) && decide (pat = pat2)
  | _, _ => false

/-- Element equality of interned strings as the claim words it: the
    `(attribute var, string id)` pair. -/
def pair_eq_string (x y : StringValue) : Bool :=
  decide (x.var = y.var) && decide (x.str = y.str)

/-- String-list equality as the claim words it: element-wise equality of
    the interned pairs. -/
def spec_eq_string_list (a b : List StringValue) : Bool :=
  decide (a.length = b.length) &&
    (a.zip b).all (fun p => pair_eq_string p.1 p.2)

def spec_eq_set_right_value : SetRightValue → SetRightValue → Bool
  | .il a, .il b => eq_integer_list a b
  | .sl a, .sl b => spec_eq_string_list a b
  | .variableValue x, .variableValue y => decide (x.var = y.var)
  | _, _ => false

def spec_eq_list_value : ListValue → ListValue → Bool
  | .il a, .il b => eq_integer_list a b
  | .sl a, .sl b => spec_eq_string_list a b
  | _, _ => false

/-- Structural equality as the claim words it: same operator, same
    resolved attribute id, same literal payload, with value equality per
    kind — integers by `=`, floats by `feq`, strings by the interned pair,
    lists element-wise. -/
def spec_eq : AstNode → AstNode → Bool
  | .numericCompare _ op a v, .numericCompare _ op2 a2 v2 =>
    decide (a.var = a2.var) && decide (op = op2) &&
      eq_numeric_compare_value v v2
  | .equality _ op a v, .equality _ op2 a2 v2 =>
    decide (a.var = a2.var) && decide (op = op2) && eq_equality_value v v2
  | .boolVariable _ a, .boolVariable _ a2 => decide (a.var = a2.var)
  | .boolNot _ c, .boolNot _ c2 => spec_eq c c2
  | .boolAnd _ l r, .boolAnd _ l2 r2 => spec_eq l l2 && spec_eq r r2
  | .boolOr _ l r, .boolOr _ l2 r2 => spec_eq l l2 && spec_eq r r2
  | .setNode _ op l r, .setNode _ op2 l2 r2 =>
    decide (op = op2) &&
      (eq_set_left_value l l2 && spec_eq_set_right_value r r2)
  | .listNode _ op a v, .listNode _ op2 a2 v2 =>
    decide (op = op2) && (decide (a.var = a2.var) && spec_eq_list_value v v2)
  | .specialFrequency _ t a ns v len, .specialFrequency _ t2 a2 ns2 v2 len2 =>
    decide (a.var = a2.var) && decide (len = len2) &&
      decide (ns.var = ns2.var) && decide (ns.str = ns2.str) &&
      decide (t = t2) && decide (v = v2)
  | .specialSegment _ op hv a sid sec, .specialSegment _ op2 hv2 a2 sid2 sec2 =>
    decide (a.var = a2.var) && decide (hv = hv2) && decide (op = op2) &&
      decide (sec = sec2) && decide (sid = sid2)
  | .specialGeo _ lat lon hr rad, .specialGeo _ lat2 lon2 hr2 rad2 =>
    decide (hr = hr2) && eq_geo_value lat lat2 && eq_geo_value lon lon2 &&
      eq_geo_value rad rad2
  | .specialString _ op a pat, .specialString _ op2 a2 pat2 =>
    decide (a.var = a2.var) && decide (op = op2) && decide (pat = pat2)
  | _, _ => false

/-- The well-formedness `assign_str_id` establishes before `eq_expr` is
    ever called: every string-list literal's elements carry the var of the
    scope attribute (the list expression's attribute, or the set
    expression's variable side — which must exist). -/
def interned : AstNode → Bool
  | .boolNot _ c => interned c
  | .boolAnd _ l r => interned l && interned r
  | .boolOr _ l r => interned l && interned r
  | .listNode _ _ attr (.sl l) => l.all (fun s => decide (s.var = attr.var))
  | .setNode _ _ (.variableValue av) (.sl l) =>
    l.all (fun s => decide (s.var = av.var))
  | .setNode _ _ (.i _) (.sl _) => false
  | .setNode _ _ (.s _) (.sl _) => false
  | _ => true

/-- On lists whose corresponding elements carry equal vars, the code's
    string-list walk coincides with element-wise pair equality. -/
theorem eq_string_list_vars (w : Nat) :
    ∀ (l1 l2 : List StringValue), (∀ s ∈ l1, s.var = w) →
      (∀ s ∈ l2, s.var = w) → eq_string_list l1 l2 = spec_eq_string_list l1 l2
  := by
  intro l1
  induction l1 with
  | nil =>
    intro l2 h1 h2
    cases l2 <;> rfl
  | cons x xs ih =>
    intro l2 h1 h2
    cases l2 with
    | nil => rfl
    | cons y ys =>
      have hx : x.var = w := h1 x (by simp)
      have hy : y.var = w := h2 y (by simp)
      have hxs : ∀ s ∈ xs, s.var = w := fun s hs => h1 s (by simp [hs])
      have hys : ∀ s ∈ ys, s.var = w := fun s hs => h2 s (by simp [hs])
      have htail := ih ys hxs hys
      simp only [eq_string_list, spec_eq_string_list, List.zip_cons_cons,
        List.all_cons, pair_eq_string] at htail ⊢
      have hvv : x.var = y.var := by rw [hx, hy]
      by_cases hst : x.str = y.str
      · simp only [hvv, hst, decide_True, ne_eq, not_true_eq_false,
          decide_False, Bool.and_false, Bool.not_false, Bool.true_and,
          Bool.and_true]
        by_cases hlen : xs.length = ys.length
        · simpa [hlen] using htail
        · simp [hlen]
      · simp [hvv, hst]

set_option maxHeartbeats 2000000 in
/-- Under interned well-formedness, the code's structural equality is
    exactly the claim's. -/
theorem eq_expr_eq_spec : ∀ a : AstNode, interned a = true →
    ∀ b : AstNode, interned b = true → eq_expr a b = spec_eq a b := by
  intro a
  induction a with
  | numericCompare i op attr v =>
    intro ha b hb
    cases b <;> rfl
  | equality i op attr v =>
    intro ha b hb
    cases b <;> rfl
  | boolVariable i attr =>
    intro ha b hb
    cases b <;> rfl
  | specialFrequency i t attr ns v len =>
    intro ha b hb
    cases b <;> rfl
  | specialSegment i op hv attr sid sec =>
    intro ha b hb
    cases b <;> rfl
  | specialGeo i lat lon hr rad =>
    intro ha b hb
    cases b <;> rfl
  | specialString i op attr pat =>
    intro ha b hb
    cases b <;> rfl
  | boolNot i c ihc =>
    intro ha b hb
    have hac : interned c = true := by simpa [interned] using ha
    cases b <;> try rfl
    next i2 c2 =>
      have hbc : interned c2 = true := by simpa [interned] using hb
      simp only [eq_expr, spec_eq]
      exact ihc hac c2 hbc
  | boolAnd i l r ihl ihr =>
    intro ha b hb
    obtain ⟨hal, har⟩ : interned l = true ∧ interned r = true := by
      simpa [interned, Bool.and_eq_true] using ha
    cases b <;> try rfl
    next i2 l2 r2 =>
      obtain ⟨hbl, hbr⟩ : interned l2 = true ∧ interned r2 = true := by
        simpa [interned, Bool.and_eq_true] using hb
      simp only [eq_expr, spec_eq]
      rw [ihl hal l2 hbl, ihr har r2 hbr]
  | boolOr i l r ihl ihr =>
    intro ha b hb
    obtain ⟨hal, har⟩ : interned l = true ∧ interned r = true := by
      simpa [interned, Bool.and_eq_true] using ha
    cases b <;> try rfl
    next i2 l2 r2 =>
      obtain ⟨hbl, hbr⟩ : interned l2 = true ∧ interned r2 = true := by
        simpa [interned, Bool.and_eq_true] using hb
      simp only [eq_expr, spec_eq]
      rw [ihl hal l2 hbl, ihr har r2 hbr]
  | setNode i op l r =>
    intro ha b hb
    cases b <;> try rfl
    next i2 op2 l2 r2 =>
      simp only [eq_expr, spec_eq]
      cases r with
      | il a1 => cases r2 <;> rfl
      | variableValue av1 => cases r2 <;> rfl
      | sl la =>
        cases l with
        | i n => simp [interned] at ha
        | s sv => simp [interned] at ha
        | variableValue av1 =>
          have hla : ∀ s ∈ la, s.var = av1.var := by
            simpa [interned, List.all_eq_true] using ha
          cases r2 with
          | il b1 => rfl
          | variableValue av2 => rfl
          | sl lb =>
            cases l2 with
            | i n2 => simp [interned] at hb
            | s sv2 => simp [interned] at hb
            | variableValue av2 =>
              have hlb : ∀ s ∈ lb, s.var = av2.var := by
                simpa [interned, List.all_eq_true] using hb
              simp only [eq_set_right_value, spec_eq_set_right_value,
                eq_set_left_value]
              by_cases hav : av1.var = av2.var
              · rw [eq_string_list_vars av1.var la lb hla
                  (fun s hs => (hlb s hs).trans hav.symm)]
              · simp [hav]
  | listNode i op attr v =>
    intro ha b hb
    cases b <;> try rfl
    next i2 op2 attr2 v2 =>
      simp only [eq_expr, spec_eq]
      cases v with
      | il a1 => cases v2 <;> rfl
      | sl la =>
        have hla : ∀ s ∈ la, s.var = attr.var := by
          simpa [interned, List.all_eq_true] using ha
        cases v2 with
        | il b1 => rfl
        | sl lb =>
          have hlb : ∀ s ∈ lb, s.var = attr2.var := by
            simpa [interned, List.all_eq_true] using hb
          simp only [eq_list_value, spec_eq_list_value]
          by_cases hav : attr.var = attr2.var
          · rw [eq_string_list_vars attr.var la lb hla
              (fun s hs => (hlb s hs).trans hav.symm)]
          · simp [hav]

/-- C4: on nodes whose attribute names are resolved and string literals
    interned (so string-list elements carry their scope attribute's var),
    `eq_expr a b` is true exactly when `a` and `b` are structurally equal
    in the claim's sense — same operator, same resolved attribute id, same
    literal payload, with integers compared by `=`, floats by `feq`,
    strings by their interned `(attribute var, string id)` pair, and lists
    element-wise. -/
theorem eq_expr_structural_equality (a b : AstNode)
    (ha : interned a = true) (hb : interned b = true) :
    eq_expr a b = true ↔ spec_eq a b = true := by
  rw [eq_expr_eq_spec a ha b hb]

set_option maxHeartbeats 2000000 in
/-- C4 witness: two interned set expressions over the same variable whose
    string lists agree element-wise compare equal, in both senses. -/
theorem eq_expr_structural_equality_witness :
    eq_expr
      (.setNode 0 .inSet (.variableValue ⟨['u'], 3⟩)
        (.sl [⟨['s'], 3, 7⟩, ⟨['t'], 3, 8⟩]))
      (.setNode 1 .inSet (.variableValue ⟨['u'], 3⟩)
        (.sl [⟨['s'], 3, 7⟩, ⟨['t'], 3, 8⟩])) = true := by
  exact (eq_expr_structural_equality
    (.setNode 0 .inSet (.variableValue ⟨['u'], 3⟩)
      (.sl [⟨['s'], 3, 7⟩, ⟨['t'], 3, 8⟩]))
    (.setNode 1 .inSet (.variableValue ⟨['u'], 3⟩)
      (.sl [⟨['s'], 3, 7⟩, ⟨['t'], 3, 8⟩]))
    (by decide) (by decide)).mpr (by decide)

/-! ## C2 — bound derivation -/

/-- `struct value_bound` as used by `src/ast.c` (all field groups present;
    only the group selected by `value_type` is meaningful). -/
structure ValueBound where
  value_type : ValueKind := .i
  bmin : Bool := false
  bmax : Bool := false
  imin : Int := 0
  imax : Int := 0
  fmin : Rat := 0
  fmax : Rat := 0
  smin : Nat := 0
  smax : Nat := 0
  is_string_bounded : Bool := false
deriving DecidableEq, Repr

/-- `struct attr_domain` as used by `get_variable_bound`. -/
structure AttrDomain where
  attr_var : AttrVar
  bound : ValueBound
  allow_undefined : Bool
deriving DecidableEq, Repr

/-- `equality_value_matches` from `src/ast.c`. -/
def equality_value_matches : EqualityValue → ValueKind → Bool
  | .i _, .i => true
  | .f _, .f => true
  | .s _, .s => true
  | _, _ => false

/-- `numeric_compare_value_matches` from `src/ast.c`. -/
def numeric_compare_value_matches : NumCompareValue → ValueKind → Bool
  | .i _, .i => true
  | .f _, .f => true
  | _, _ => false

/-- `__DBL_EPSILON__` = 2^-52, used by the float widening rules. -/
def DBL_EPSILON : Rat := 1 / 4503599627370496

/-- `get_variable_bound_inner` from `src/ast.c`, with the `bound` and
    `was_touched` out-parameters threaded as state and `invalid_expr`
    aborts as `none`.  (`d64min`/`d64max`, `fmin`/`fmax` and
    `smin`/`smax` of the missing `utils.c` are the evident min/max on
    `int64_t`, `double` and string ids.) -/
def get_variable_bound_inner (domain : AttrDomain) :
    AstNode → ValueBound → Bool → Bool → Option (ValueBound × Bool)
  | .boolVariable _ av, bound, is_reversed, wt =>
    if domain.attr_var.var ≠ av.var then some (bound, wt)
    else if domain.bound.value_type ≠ .b then none
    else if is_reversed then
      some ({ bound with
        bmin := false, bmax := if wt then bound.bmax else false }, true)
    else
      some ({ bound with
        bmin := if wt then bound.bmin else true, bmax := true }, true)
  | .boolNot _ c, bound, is_reversed, wt =>
    get_variable_bound_inner domain c bound (! is_reversed) wt
  | .boolAnd _ l r, bound, is_reversed, wt =>
    match get_variable_bound_inner domain l bound is_reversed wt with
    | none => none
    | some (b1, wt1) => get_variable_bound_inner domain r b1 is_reversed wt1
  | .boolOr _ l r, bound, is_reversed, wt =>
    match get_variable_bound_inner domain l bound is_reversed wt with
    | none => none
    | some (b1, wt1) => get_variable_bound_inner domain r b1 is_reversed wt1
  | .equality _ op av v, bound, is_reversed, wt =>
    if domain.attr_var.var ≠ av.var then some (bound, wt)
    else if ¬ equality_value_matches v domain.bound.value_type then none
    else
      match op, v with
      | .eq, .i val =>
        if is_reversed then
          some ({ bound with
            imin := domain.bound.imin, imax := domain.bound.imax }, true)
        else
          some ({ bound with
            imin := min bound.imin val, imax := max bound.imax val }, true)
      | .eq, .f val =>
        if is_reversed then
          some ({ bound with
            fmin := domain.bound.fmin, fmax := domain.bound.fmax }, true)
        else
          some ({ bound with
            fmin := min bound.fmin val, fmax := max bound.fmax val }, true)
      | .eq, .s sv =>
        if is_reversed then
          some ({ bound with
            smin := domain.bound.smin, smax := domain.bound.smax }, true)
        else
          some ({ bound with
            smin := min bound.smin sv.str, smax := max bound.smax sv.str },
            true)
      | .ne, .i val =>
        if is_reversed then
          some ({ bound with
            imin := min bound.imin val, imax := max bound.imax val }, true)
        else
          some ({ bound with
            imin := domain.bound.imin, imax := domain.bound.imax }, true)
      | .ne, .f val =>
        if is_reversed then
          some ({ bound with
            fmin := min bound.fmin val, fmax := max bound.fmax val }, true)
        else
          some ({ bound with
            fmin := domain.bound.fmin, fmax := domain.bound.fmax }, true)
      | .ne, .s sv =>
        if is_reversed then
          some ({ bound with
            smin := min bound.smin sv.str, smax := max bound.smax sv.str },
            true)
        else
          some ({ bound with
            smin := domain.bound.smin, smax := domain.bound.smax }, true)
  | .numericCompare _ op av v, bound, is_reversed, wt =>
    if domain.attr_var.var ≠ av.var then some (bound, wt)
    else if ¬ numeric_compare_value_matches v domain.bound.value_type then
      none
    else
      match op, v with
      | .lt, .i val =>
        if is_reversed then
          some ({ bound with
            imin := min bound.imin val, imax := domain.bound.imax }, true)
        else
          some ({ bound with
            imin := domain.bound.imin, imax := max bound.imax (val - 1) },
            true)
      | .lt, .f val =>
        if is_reversed then
          some ({ bound with
            fmin := min bound.fmin val, fmax := domain.bound.fmax }, true)
        else
          some ({ bound with
            fmin := domain.bound.fmin, fmax := max bound.fmax (val - DBL_EPSILON) }, true)
      | .le, .i val =>
        if is_reversed then
          some ({ bound with
            imin := min bound.imin (val + 1), imax := domain.bound.imax },
            true)
        else
          some ({ bound with
            imin := domain.bound.imin, imax := max bound.imax val }, true)
      | .le, .f val =>
        if is_reversed then
          some ({ bound with
            fmin := min bound.fmin (val + DBL_EPSILON), fmax := domain.bound.fmax }, true)
        else
          some ({ bound with
            fmin := domain.bound.fmin, fmax := max bound.fmax val }, true)
      | .gt, .i val =>
        if is_reversed then
          some ({ bound with
            imin := domain.bound.imin, imax := max bound.imax val }, true)
        else
          some ({ bound with
            imin := min bound.imin (val + 1), imax := domain.bound.imax },
            true)
      | .gt, .f val =>
        if is_reversed then
          some ({ bound with
            fmin := domain.bound.fmin, fmax := max bound.fmax val }, true)
        else
          some ({ bound with
            fmin := min bound.fmin (val + DBL_EPSILON), fmax := domain.bound.fmax }, true)
      | .ge, .i val =>
        if is_reversed then
          some ({ bound with
            imin := domain.bound.imin, imax := max bound.imax (val - 1) },
            true)
        else
          some ({ bound with
            imin := min bound.imin val, imax := domain.bound.imax }, true)
      | .ge, .f val =>
        if is_reversed then
          some ({ bound with
            fmin := domain.bound.fmin, fmax := max bound.fmax (val - DBL_EPSILON) }, true)
        else
          some ({ bound with
            fmin := min bound.fmin val, fmax := domain.bound.fmax }, true)
  | _, bound, _, wt => some (bound, wt)

/-- `get_variable_bound` from `src/ast.c`: start from the inverted
    (empty) interval, widen through the tree, and fall back to the full
    domain bound when no leaf touched the attribute; unsupported domain
    kinds abort. -/
def get_variable_bound (domain : AttrDomain) (node : AstNode) :
    Option ValueBound :=
  let init : Option ValueBound :=
    match domain.bound.value_type with
    | .b => some { value_type := .b, bmin := domain.bound.bmax, bmax := domain.bound.bmin }
    | .i => some { value_type := .i, imin := domain.bound.imax, imax := domain.bound.imin }
    | .f => some { value_type := .f, fmin := domain.bound.fmax, fmax := domain.bound.fmin }
    | .s =>
      if domain.bound.is_string_bounded then
        some { value_type := .s, smin := domain.bound.smax, smax := domain.bound.smin }
      else none
    | _ => none
  match init with
  | none => none
  | some bound0 =>
    match get_variable_bound_inner domain node bound0 false false with
    | none => none
    | some (b, wt) =>
      if wt then some b
      else
        match domain.bound.value_type with
        | .b => some { b with
            bmin := domain.bound.bmin, bmax := domain.bound.bmax }
        | .i => some { b with
            imin := domain.bound.imin, imax := domain.bound.imax }
        | .f => some { b with
            fmin := domain.bound.fmin, fmax := domain.bound.fmax }
        | .s => some { b with
            smin := domain.bound.smin, smax := domain.bound.smax }
        | _ => none

/-- Expressions all of whose leaves are integer comparisons or integer
    equalities over attribute `a`. -/
def leaves_on_int (a : Nat) : AstNode → Bool
  | .boolNot _ c => leaves_on_int a c
  | .boolAnd _ l r => leaves_on_int a l && leaves_on_int a r
  | .boolOr _ l r => leaves_on_int a l && leaves_on_int a r
  | .numericCompare _ _ av (.i _) => decide (av.var = a)
  | .equality _ _ av (.i _) => decide (av.var = a)
  | _ => false

/-- Expressions all of whose leaves are the boolean variable `a`. -/
def leaves_on_bool (a : Nat) : AstNode → Bool
  | .boolNot _ c => leaves_on_bool a c
  | .boolAnd _ l r => leaves_on_bool a l && leaves_on_bool a r
  | .boolOr _ l r => leaves_on_bool a l && leaves_on_bool a r
  | .boolVariable _ av => decide (av.var = a)
  | _ => false

/-- The truth value of an all-integer-leaf expression as a function of
    the attribute's value. -/
def idenote (x : Int) : AstNode → Bool
  | .boolNot _ c => ! idenote x c
  | .boolAnd _ l r => idenote x l && idenote x r
  | .boolOr _ l r => idenote x l || idenote x r
  | .numericCompare _ op _ v =>
    match op, v with
    | .lt, .i lit => decide (x < lit)
    | .le, .i lit => decide (x ≤ lit)
    | .gt, .i lit => decide (x > lit)
    | .ge, .i lit => decide (x ≥ lit)
    | _, _ => false
  | .equality _ op _ v =>
    match op, v with
    | .eq, .i lit => decide (x = lit)
    | .ne, .i lit => decide (x ≠ lit)
    | _, _ => false
  | _ => false

/-- The truth value of an all-boolean-variable expression as a function
    of the attribute's value. -/
def bdenote (x : Bool) : AstNode → Bool
  | .boolNot _ c => ! bdenote x c
  | .boolAnd _ l r => bdenote x l && bdenote x r
  | .boolOr _ l r => bdenote x l || bdenote x r
  | .boolVariable _ _ => x
  | _ => false

/-- On an event binding `a` to the integer `x`, an all-integer-leaf
    expression evaluates to its denotation at `x`. -/
theorem evalNM_leaves_on_int (config : Config) (event : Event)
    (geoFn : Rat → Rat → Rat → Rat → Rat → Bool) (a : Nat) (x : Int)
    (hx : get_variable config a event = .defined (.i x)) :
    ∀ E, leaves_on_int a E = true →
      evalNM config event geoFn E = some (idenote x E) := by
  intro E
  induction E with
  | numericCompare i op attr v =>
    intro hE
    cases v with
    | f q => simp [leaves_on_int] at hE
    | i lit =>
      have hva : attr.var = a := by simpa [leaves_on_int] using hE
      rw [evalNM_numericCompare]
      cases op <;> simp [match_numeric_compare_expr, hva, hx, idenote]
  | equality i op attr v =>
    intro hE
    cases v with
    | f q => simp [leaves_on_int] at hE
    | s sv => simp [leaves_on_int] at hE
    | i lit =>
      have hva : attr.var = a := by simpa [leaves_on_int] using hE
      rw [evalNM_equality]
      cases op <;> simp [match_equality_expr, hva, hx, idenote]
  | boolNot i c ih =>
    intro hE
    have hc : leaves_on_int a c = true := by simpa [leaves_on_int] using hE
    rw [evalNM_boolNot, ih hc]
    simp [idenote]
  | boolAnd i l r ihl ihr =>
    intro hE
    obtain ⟨hl, hr⟩ : leaves_on_int a l = true ∧ leaves_on_int a r = true :=
      by simpa [leaves_on_int, Bool.and_eq_true] using hE
    rw [evalNM_boolAnd, ihl hl, ihr hr]
    cases hdl : idenote x l <;> simp [idenote, hdl]
  | boolOr i l r ihl ihr =>
    intro hE
    obtain ⟨hl, hr⟩ : leaves_on_int a l = true ∧ leaves_on_int a r = true :=
      by simpa [leaves_on_int, Bool.and_eq_true] using hE
    rw [evalNM_boolOr, ihl hl, ihr hr]
    cases hdl : idenote x l <;> simp [idenote, hdl]
  | boolVariable i attr => intro hE; simp [leaves_on_int] at hE
  | setNode i op left right => intro hE; simp [leaves_on_int] at hE
  | listNode i op attr v => intro hE; simp [leaves_on_int] at hE
  | specialFrequency i t attr ns v len =>
    intro hE; simp [leaves_on_int] at hE
  | specialSegment i op hv attr sid sec =>
    intro hE; simp [leaves_on_int] at hE
  | specialGeo i lat lon hr rad => intro hE; simp [leaves_on_int] at hE
  | specialString i op attr pat => intro hE; simp [leaves_on_int] at hE

/-- On an event binding `a` to the boolean `x`, an all-boolean-leaf
    expression evaluates to its denotation at `x`. -/
theorem evalNM_leaves_on_bool (config : Config) (event : Event)
    (geoFn : Rat → Rat → Rat → Rat → Rat → Bool) (a : Nat) (x : Bool)
    (hx : get_variable config a event = .defined (.b x)) :
    ∀ E, leaves_on_bool a E = true →
      evalNM config event geoFn E = some (bdenote x E) := by
  intro E
  induction E with
  | boolVariable i attr =>
    intro hE
    have hva : attr.var = a := by simpa [leaves_on_bool] using hE
    rw [evalNM_boolVariable]
    simp [match_bool_variable, hva, hx, bdenote]
  | boolNot i c ih =>
    intro hE
    have hc : leaves_on_bool a c = true := by simpa [leaves_on_bool] using hE
    rw [evalNM_boolNot, ih hc]
    simp [bdenote]
  | boolAnd i l r ihl ihr =>
    intro hE
    obtain ⟨hl, hr⟩ : leaves_on_bool a l = true ∧ leaves_on_bool a r = true :=
      by simpa [leaves_on_bool, Bool.and_eq_true] using hE
    rw [evalNM_boolAnd, ihl hl, ihr hr]
    cases hdl : bdenote x l <;> simp [bdenote, hdl]
  | boolOr i l r ihl ihr =>
    intro hE
    obtain ⟨hl, hr⟩ : leaves_on_bool a l = true ∧ leaves_on_bool a r = true :=
      by simpa [leaves_on_bool, Bool.and_eq_true] using hE
    rw [evalNM_boolOr, ihl hl, ihr hr]
    cases hdl : bdenote x l <;> simp [bdenote, hdl]
  | numericCompare i op attr v => intro hE; simp [leaves_on_bool] at hE
  | equality i op attr v => intro hE; simp [leaves_on_bool] at hE
  | setNode i op left right => intro hE; simp [leaves_on_bool] at hE
  | listNode i op attr v => intro hE; simp [leaves_on_bool] at hE
  | specialFrequency i t attr ns v len =>
    intro hE; simp [leaves_on_bool] at hE
  | specialSegment i op hv attr sid sec =>
    intro hE; simp [leaves_on_bool] at hE
  | specialGeo i lat lon hr rad => intro hE; simp [leaves_on_bool] at hE
  | specialString i op attr pat => intro hE; simp [leaves_on_bool] at hE

/-- Widening tracking for an integer domain: on an all-integer-leaf
    expression the inner walk never aborts, always touches, preserves
    membership of any in-domain value, and captures every value whose
    (possibly reversed) denotation is true. -/
theorem inner_int (domain : AttrDomain) (x : Int)
    (hdt : domain.bound.value_type = .i)
    (hlo : domain.bound.imin ≤ x) (hhi : x ≤ domain.bound.imax) :
    ∀ E, leaves_on_int domain.attr_var.var E = true →
      ∀ (bound : ValueBound) (rev wt : Bool),
        ∃ b', get_variable_bound_inner domain E bound rev wt =
            some (b', true) ∧
          (bound.imin ≤ x → x ≤ bound.imax → b'.imin ≤ x ∧ x ≤ b'.imax) ∧
          ((if rev then ! idenote x E else idenote x E) = true →
            b'.imin ≤ x ∧ x ≤ b'.imax) := by
  intro E
  induction E with
  | numericCompare i op attr v =>
    intro hE bound rev wt
    cases v with
    | f q => simp [leaves_on_int] at hE
    | i lit =>
      have hva : domain.attr_var.var = attr.var :=
        (by simpa [leaves_on_int] using hE : attr.var = _).symm
      have hmatch : numeric_compare_value_matches (NumCompareValue.i lit)
          domain.bound.value_type = true := by
        simp [hdt, numeric_compare_value_matches]
      cases op with
      | lt =>
        cases rev with
        | false =>
          refine ⟨{ bound with imin := domain.bound.imin, imax := max bound.imax (lit - 1) }, ?_, ?_, ?_⟩
          · simp [get_variable_bound_inner, hva, hmatch]
          · intro h1 h2
            refine ⟨by simp only []; omega, by simp only []; omega⟩
          · intro hsat
            simp [idenote] at hsat
            refine ⟨by simp only []; omega, by simp only []; omega⟩
        | true =>
          refine ⟨{ bound with imin := min bound.imin lit, imax := domain.bound.imax }, ?_, ?_, ?_⟩
          · simp [get_variable_bound_inner, hva, hmatch]
          · intro h1 h2
            refine ⟨by simp only []; omega, by simp only []; omega⟩
          · intro hsat
            simp [idenote] at hsat
            refine ⟨by simp only []; omega, by simp only []; omega⟩
      | le =>
        cases rev with
        | false =>
          refine ⟨{ bound with imin := domain.bound.imin, imax := max bound.imax lit }, ?_, ?_, ?_⟩
          · simp [get_variable_bound_inner, hva, hmatch]
          · intro h1 h2
            refine ⟨by simp only []; omega, by simp only []; omega⟩
          · intro hsat
            simp [idenote] at hsat
            refine ⟨by simp only []; omega, by simp only []; omega⟩
        | true =>
          refine ⟨{ bound with imin := min bound.imin (lit + 1), imax := domain.bound.imax }, ?_, ?_, ?_⟩
          · simp [get_variable_bound_inner, hva, hmatch]
          · intro h1 h2
            refine ⟨by simp only []; omega, by simp only []; omega⟩
          · intro hsat
            simp [idenote] at hsat
            refine ⟨by simp only []; omega, by simp only []; omega⟩
      | gt =>
        cases rev with
        | false =>
          refine ⟨{ bound with imin := min bound.imin (lit + 1), imax := domain.bound.imax }, ?_, ?_, ?_⟩
          · simp [get_variable_bound_inner, hva, hmatch]
          · intro h1 h2
            refine ⟨by simp only []; omega, by simp only []; omega⟩
          · intro hsat
            simp [idenote] at hsat
            refine ⟨by simp only []; omega, by simp only []; omega⟩
        | true =>
          refine ⟨{ bound with imin := domain.bound.imin, imax := max bound.imax lit }, ?_, ?_, ?_⟩
          · simp [get_variable_bound_inner, hva, hmatch]
          · intro h1 h2
            refine ⟨by simp only []; omega, by simp only []; omega⟩
          · intro hsat
            simp [idenote] at hsat
            refine ⟨by simp only []; omega, by simp only []; omega⟩
      | ge =>
        cases rev with
        | false =>
          refine ⟨{ bound with imin := min bound.imin lit, imax := domain.bound.imax }, ?_, ?_, ?_⟩
          · simp [get_variable_bound_inner, hva, hmatch]
          · intro h1 h2
            refine ⟨by simp only []; omega, by simp only []; omega⟩
          · intro hsat
            simp [idenote] at hsat
            refine ⟨by simp only []; omega, by simp only []; omega⟩
        | true =>
          refine ⟨{ bound with imin := domain.bound.imin, imax := max bound.imax (lit - 1) }, ?_, ?_, ?_⟩
          · simp [get_variable_bound_inner, hva, hmatch]
          · intro h1 h2
            refine ⟨by simp only []; omega, by simp only []; omega⟩
          · intro hsat
            simp [idenote] at hsat
            refine ⟨by simp only []; omega, by simp only []; omega⟩
  | equality i op attr v =>
    intro hE bound rev wt
    cases v with
    | f q => simp [leaves_on_int] at hE
    | s sv => simp [leaves_on_int] at hE
    | i lit =>
      have hva : domain.attr_var.var = attr.var :=
        (by simpa [leaves_on_int] using hE : attr.var = _).symm
      have hmatch : equality_value_matches (EqualityValue.i lit)
          domain.bound.value_type = true := by
        simp [hdt, equality_value_matches]
      cases op with
      | eq =>
        cases rev with
        | false =>
          refine ⟨{ bound with imin := min bound.imin lit, imax := max bound.imax lit }, ?_, ?_, ?_⟩
          · simp [get_variable_bound_inner, hva, hmatch]
          · intro h1 h2
            refine ⟨by simp only []; omega, by simp only []; omega⟩
          · intro hsat
            simp [idenote] at hsat
            refine ⟨by simp only []; omega, by simp only []; omega⟩
        | true =>
          refine ⟨{ bound with imin := domain.bound.imin, imax := domain.bound.imax }, ?_, ?_, ?_⟩
          · simp [get_variable_bound_inner, hva, hmatch]
          · intro h1 h2
            refine ⟨by simp only []; omega, by simp only []; omega⟩
          · intro hsat
            simp [idenote] at hsat
            refine ⟨by simp only []; omega, by simp only []; omega⟩
      | ne =>
        cases rev with
        | false =>
          refine ⟨{ bound with imin := domain.bound.imin, imax := domain.bound.imax }, ?_, ?_, ?_⟩
          · simp [get_variable_bound_inner, hva, hmatch]
          · intro h1 h2
            refine ⟨by simp only []; omega, by simp only []; omega⟩
          · intro hsat
            simp [idenote] at hsat
            refine ⟨by simp only []; omega, by simp only []; omega⟩
        | true =>
          refine ⟨{ bound with imin := min bound.imin lit, imax := max bound.imax lit }, ?_, ?_, ?_⟩
          · simp [get_variable_bound_inner, hva, hmatch]
          · intro h1 h2
            refine ⟨by simp only []; omega, by simp only []; omega⟩
          · intro hsat
            simp [idenote] at hsat
            refine ⟨by simp only []; omega, by simp only []; omega⟩
  | boolNot i c ih =>
    intro hE bound rev wt
    have hc : leaves_on_int domain.attr_var.var c = true := by
      simpa [leaves_on_int] using hE
    obtain ⟨b', hb', hpres, hsat⟩ := ih hc bound (! rev) wt
    refine ⟨b', by simpa [get_variable_bound_inner] using hb', hpres, ?_⟩
    intro h
    apply hsat
    cases rev <;> simpa [idenote, Bool.not_not] using h
  | boolAnd i l r ihl ihr =>
    intro hE bound rev wt
    obtain ⟨hl, hr⟩ : leaves_on_int domain.attr_var.var l = true ∧
        leaves_on_int domain.attr_var.var r = true := by
      simpa [leaves_on_int, Bool.and_eq_true] using hE
    obtain ⟨b1, hb1, hpres1, hsat1⟩ := ihl hl bound rev wt
    obtain ⟨b2, hb2, hpres2, hsat2⟩ := ihr hr b1 rev true
    refine ⟨b2, by simp [get_variable_bound_inner, hb1, hb2], ?_, ?_⟩
    · intro h1 h2
      obtain ⟨g1, g2⟩ := hpres1 h1 h2
      exact hpres2 g1 g2
    · intro h
      cases rev with
      | false =>
        obtain ⟨hdl, hdr⟩ : idenote x l = true ∧ idenote x r = true := by
          simpa [idenote, Bool.and_eq_true] using h
        exact hsat2 (by simpa using hdr)
      | true =>
        have hor : idenote x l = false ∨ idenote x r = false := by
          simpa [idenote] using h
        rcases hor with hf | hf
        · obtain ⟨g1, g2⟩ := hsat1 (by simp [hf])
          exact hpres2 g1 g2
        · exact hsat2 (by simp [hf])
  | boolOr i l r ihl ihr =>
    intro hE bound rev wt
    obtain ⟨hl, hr⟩ : leaves_on_int domain.attr_var.var l = true ∧
        leaves_on_int domain.attr_var.var r = true := by
      simpa [leaves_on_int, Bool.and_eq_true] using hE
    obtain ⟨b1, hb1, hpres1, hsat1⟩ := ihl hl bound rev wt
    obtain ⟨b2, hb2, hpres2, hsat2⟩ := ihr hr b1 rev true
    refine ⟨b2, by simp [get_variable_bound_inner, hb1, hb2], ?_, ?_⟩
    · intro h1 h2
      obtain ⟨g1, g2⟩ := hpres1 h1 h2
      exact hpres2 g1 g2
    · intro h
      cases rev with
      | true =>
        obtain ⟨hdl, hdr⟩ : idenote x l = false ∧ idenote x r = false := by
          have hh : (idenote x l || idenote x r) = false := by
            simpa [idenote] using h
          exact ⟨(Bool.or_eq_false_iff.mp hh).1, (Bool.or_eq_false_iff.mp hh).2⟩
        exact hsat2 (by simp [hdr])
      | false =>
        have hor : idenote x l = true ∨ idenote x r = true := by
          have hh : (idenote x l || idenote x r) = true := by
            simpa [idenote] using h
          exact Bool.or_eq_true_iff.mp hh
        rcases hor with hf | hf
        · obtain ⟨g1, g2⟩ := hsat1 (by simp [hf])
          exact hpres2 g1 g2
        · exact hsat2 (by simp [hf])
  | boolVariable i attr => intro hE; simp [leaves_on_int] at hE
  | setNode i op left right => intro hE; simp [leaves_on_int] at hE
  | listNode i op attr v => intro hE; simp [leaves_on_int] at hE
  | specialFrequency i t attr ns v len =>
    intro hE; simp [leaves_on_int] at hE
  | specialSegment i op hv attr sid sec =>
    intro hE; simp [leaves_on_int] at hE
  | specialGeo i lat lon hr rad => intro hE; simp [leaves_on_int] at hE
  | specialString i op attr pat => intro hE; simp [leaves_on_int] at hE

/-- Widening tracking for a boolean domain. -/
theorem inner_bool (domain : AttrDomain) (x : Bool)
    (hdt : domain.bound.value_type = .b) :
    ∀ E, leaves_on_bool domain.attr_var.var E = true →
      ∀ (bound : ValueBound) (rev wt : Bool),
        ∃ b', get_variable_bound_inner domain E bound rev wt =
            some (b', true) ∧
          (wt = true → bound.bmin ≤ x → x ≤ bound.bmax →
            b'.bmin ≤ x ∧ x ≤ b'.bmax) ∧
          ((if rev then ! bdenote x E else bdenote x E) = true →
            b'.bmin ≤ x ∧ x ≤ b'.bmax) := by
  intro E
  induction E with
  | boolVariable i attr =>
    intro hE bound rev wt
    have hva : domain.attr_var.var = attr.var :=
      (by simpa [leaves_on_bool] using hE : attr.var = _).symm
    cases rev with
    | true =>
      refine ⟨{ bound with bmin := false, bmax := if wt then bound.bmax else false }, ?_, ?_, ?_⟩
      · simp [get_variable_bound_inner, hva, hdt]
      · intro hw h1 h2
        subst hw
        exact ⟨by simp, by simpa using h2⟩
      · intro hsat
        have hx : x = false := by simpa [bdenote] using hsat
        subst hx
        exact ⟨by simp, by simp⟩
    | false =>
      refine ⟨{ bound with bmin := if wt then bound.bmin else true, bmax := true }, ?_, ?_, ?_⟩
      · simp [get_variable_bound_inner, hva, hdt]
      · intro hw h1 h2
        subst hw
        exact ⟨by simpa using h1, by simp⟩
      · intro hsat
        have hx : x = true := by simpa [bdenote] using hsat
        subst hx
        exact ⟨by simp, by simp⟩
  | boolNot i c ih =>
    intro hE bound rev wt
    have hc : leaves_on_bool domain.attr_var.var c = true := by
      simpa [leaves_on_bool] using hE
    obtain ⟨b', hb', hpres, hsat⟩ := ih hc bound (! rev) wt
    refine ⟨b', by simpa [get_variable_bound_inner] using hb', hpres, ?_⟩
    intro h
    apply hsat
    cases rev <;> simpa [bdenote, Bool.not_not] using h
  | boolAnd i l r ihl ihr =>
    intro hE bound rev wt
    obtain ⟨hl, hr⟩ : leaves_on_bool domain.attr_var.var l = true ∧
        leaves_on_bool domain.attr_var.var r = true := by
      simpa [leaves_on_bool, Bool.and_eq_true] using hE
    obtain ⟨b1, hb1, hpres1, hsat1⟩ := ihl hl bound rev wt
    obtain ⟨b2, hb2, hpres2, hsat2⟩ := ihr hr b1 rev true
    refine ⟨b2, by simp [get_variable_bound_inner, hb1, hb2], ?_, ?_⟩
    · intro hw h1 h2
      obtain ⟨g1, g2⟩ := hpres1 hw h1 h2
      exact hpres2 rfl g1 g2
    · intro h
      cases rev with
      | false =>
        obtain ⟨hdl, hdr⟩ : bdenote x l = true ∧ bdenote x r = true := by
          simpa [bdenote, Bool.and_eq_true] using h
        exact hsat2 (by simpa using hdr)
      | true =>
        have hor : bdenote x l = false ∨ bdenote x r = false := by
          simpa [bdenote] using h
        rcases hor with hf | hf
        · obtain ⟨g1, g2⟩ := hsat1 (by simp [hf])
          exact hpres2 rfl g1 g2
        · exact hsat2 (by simp [hf])
  | boolOr i l r ihl ihr =>
    intro hE bound rev wt
    obtain ⟨hl, hr⟩ : leaves_on_bool domain.attr_var.var l = true ∧
        leaves_on_bool domain.attr_var.var r = true := by
      simpa [leaves_on_bool, Bool.and_eq_true] using hE
    obtain ⟨b1, hb1, hpres1, hsat1⟩ := ihl hl bound rev wt
    obtain ⟨b2, hb2, hpres2, hsat2⟩ := ihr hr b1 rev true
    refine ⟨b2, by simp [get_variable_bound_inner, hb1, hb2], ?_, ?_⟩
    · intro hw h1 h2
      obtain ⟨g1, g2⟩ := hpres1 hw h1 h2
      exact hpres2 rfl g1 g2
    · intro h
      cases rev with
      | true =>
        obtain ⟨hdl, hdr⟩ : bdenote x l = false ∧ bdenote x r = false := by
          simpa [bdenote] using h
        exact hsat2 (by simp [hdr])
      | false =>
        have hor : bdenote x l = true ∨ bdenote x r = true := by
          simpa [bdenote, Bool.or_eq_true] using h
        rcases hor with hf | hf
        · obtain ⟨g1, g2⟩ := hsat1 (by simp [hf])
          exact hpres2 rfl g1 g2
        · exact hsat2 (by simp [hf])
  | numericCompare i op attr v => intro hE; simp [leaves_on_bool] at hE
  | equality i op attr v => intro hE; simp [leaves_on_bool] at hE
  | setNode i op left right => intro hE; simp [leaves_on_bool] at hE
  | listNode i op attr v => intro hE; simp [leaves_on_bool] at hE
  | specialFrequency i t attr ns v len =>
    intro hE; simp [leaves_on_bool] at hE
  | specialSegment i op hv attr sid sec =>
    intro hE; simp [leaves_on_bool] at hE
  | specialGeo i lat lon hr rad => intro hE; simp [leaves_on_bool] at hE
  | specialString i op attr pat => intro hE; simp [leaves_on_bool] at hE

/-- C2 counterexample: the claim as stated fails.  With integer domain
    `a ∈ [0, 100]`, the expression `(a = 5) OR (b = 3)` matches the event
    `(a = 10, b = 3)`, yet `get_variable_bound` returns the interval
    `[5, 5]`, which does not contain 10 — the `OR` widening ignores
    branches over other attributes. -/
theorem bound_containment_counterexample :
    evalNM ⟨fun _ => 0, fun _ => true⟩ ⟨[⟨1, .i 10⟩, ⟨2, .i 3⟩]⟩
        (fun _ _ _ _ _ => true)
        (.boolOr 0 (.equality 1 .eq ⟨['a'], 1⟩ (.i 5))
          (.equality 2 .eq ⟨['b'], 2⟩ (.i 3))) = some true ∧
    (get_variable_bound
        ⟨⟨['a'], 1⟩, { value_type := .i, imin := 0, imax := 100 }, false⟩
        (.boolOr 0 (.equality 1 .eq ⟨['a'], 1⟩ (.i 5))
          (.equality 2 .eq ⟨['b'], 2⟩ (.i 3)))).map
      (fun b => decide (b.imin ≤ 10 ∧ 10 ≤ b.imax)) = some false := by
  exact ⟨by decide, by decide⟩

/-- The float rules are not containing either, already for one leaf over
    the attribute: `feq`-tolerant equality matches `1 + 1e-10`, but the
    derived float bound is exactly `[1, 1]`. -/
theorem float_bound_gap :
    evalNM ⟨fun _ => 0, fun _ => true⟩ ⟨[⟨1, .f (1 + 1 / 10000000000)⟩]⟩
        (fun _ _ _ _ _ => true) (.equality 0 .eq ⟨['a'], 1⟩ (.f 1)) =
      some true ∧
    (get_variable_bound
        ⟨⟨['a'], 1⟩, { value_type := .f, fmin := 0, fmax := 100 }, false⟩
        (.equality 0 .eq ⟨['a'], 1⟩ (.f 1))).map
      (fun b => decide (b.fmin ≤ 1 + 1 / 10000000000 ∧
        (1 : Rat) + 1 / 10000000000 ≤ b.fmax)) = some false := by
  constructor
  · rw [evalNM_equality]
    simp only [match_equality_expr, get_variable, get_variable.go]
    norm_num [feq]
  · simp only [get_variable_bound, get_variable_bound_inner,
      equality_value_matches]
    norm_num

/-- C2 as amended: bound containment holds for integer and boolean
    domains when every leaf of the expression is over the bound's
    attribute with a literal of the domain's kind (and, for integers, the
    event value lies within the declared domain interval). -/
theorem bound_containment_amended (config : Config) (event : Event)
    (geoFn : Rat → Rat → Rat → Rat → Rat → Bool) (domain : AttrDomain)
    (E : AstNode) :
    (∀ x : Int, domain.bound.value_type = .i →
      leaves_on_int domain.attr_var.var E = true →
      get_variable config domain.attr_var.var event = .defined (.i x) →
      domain.bound.imin ≤ x → x ≤ domain.bound.imax →
      evalNM config event geoFn E = some true →
      ∃ vb, get_variable_bound domain E = some vb ∧
        vb.imin ≤ x ∧ x ≤ vb.imax) ∧
    (∀ x : Bool, domain.bound.value_type = .b →
      leaves_on_bool domain.attr_var.var E = true →
      get_variable config domain.attr_var.var event = .defined (.b x) →
      evalNM config event geoFn E = some true →
      ∃ vb, get_variable_bound domain E = some vb ∧
        vb.bmin ≤ x ∧ x ≤ vb.bmax) := by
  constructor
  · intro x hdt hleaves hx hlo hhi hmatch
    have hden := evalNM_leaves_on_int config event geoFn domain.attr_var.var
      x hx E hleaves
    have hsat : idenote x E = true :=
      Option.some.inj (hden.symm.trans hmatch)
    obtain ⟨b', hb', hpres, hsatc⟩ := inner_int domain x hdt hlo hhi E hleaves
      { value_type := .i, imin := domain.bound.imax, imax := domain.bound.imin }
      false false
    have hgb : get_variable_bound domain E = some b' := by
      simp [get_variable_bound, hdt, hb']
    obtain ⟨g1, g2⟩ := hsatc (by simpa using hsat)
    exact ⟨b', hgb, g1, g2⟩
  · intro x hdt hleaves hx hmatch
    have hden := evalNM_leaves_on_bool config event geoFn domain.attr_var.var
      x hx E hleaves
    have hsat : bdenote x E = true :=
      Option.some.inj (hden.symm.trans hmatch)
    obtain ⟨b', hb', hpres, hsatc⟩ := inner_bool domain x hdt E hleaves
      { value_type := .b, bmin := domain.bound.bmax, bmax := domain.bound.bmin }
      false false
    have hgb : get_variable_bound domain E = some b' := by
      simp [get_variable_bound, hdt, hb']
    obtain ⟨g1, g2⟩ := hsatc (by simpa using hsat)
    exact ⟨b', hgb, g1, g2⟩

/-- C2 witness: the spec's own scenario — `NOT (clicks < 3)` over domain
    `[0, 100]` — contains the matching value 7 in its derived bound. -/
theorem bound_containment_amended_witness :
    ∃ vb, get_variable_bound
        ⟨⟨['c'], 1⟩, { value_type := .i, imin := 0, imax := 100 }, false⟩
        (.boolNot 0 (.numericCompare 1 .lt ⟨['c'], 1⟩ (.i 3))) = some vb ∧
      vb.imin ≤ (7 : Int) ∧ (7 : Int) ≤ vb.imax := by
  exact (bound_containment_amended ⟨fun _ => 0, fun _ => true⟩ ⟨[⟨1, .i 7⟩]⟩
    (fun _ _ _ _ _ => true)
    ⟨⟨['c'], 1⟩, { value_type := .i, imin := 0, imax := 100 }, false⟩
    (.boolNot 0 (.numericCompare 1 .lt ⟨['c'], 1⟩ (.i 3)))).1 7 rfl
    (by decide) (by decide) (by decide) (by decide) (by decide)

end BeTree
